import Mathlib

/-!
Shallow embedding of the Authly policy decision point and identifier
algebra (crates/authly-common, files `policy/engine.rs`, `policy/code.rs`
and `id.rs`), together with theorems checking the specification's claims
about them.

Modelling conventions:
* 128-bit identifier values (`Id128`, `PropId`, `AttrId`, `PolicyId`)
  are modelled as `Nat`; the Rust code never performs wrapping arithmetic
  on them, only conversions between byte arrays and `u128`, which are
  exact.
* `FnvHashMap` is modelled as an association list (`mlookup` /
  `mapInsert`), `FnvHashSet` as a plain list with membership semantics,
  and `BTreeSet` as a sorted duplicate-free list (`bset`), whose first
  element is the least one, exactly like `BTreeSet::iter().next()`.
* A Rust panic (reachable through `DynamicId::new`) is modelled as the
  explicit outcome `panicked`, distinct from returning a value or an
  `EvalError`.
-/

/-- The eight identifier kinds of `id.rs` (`kind::Kind`), with their
stable discriminants 0..7. -/
inductive Kind where
  | Persona
  | Group
  | Service
  | Domain
  | Policy
  | Property
  | Attribute
  | Directory
deriving DecidableEq, Repr

/-- `Kind::try_from(u8)` (derived `IntEnum` conversion): byte values 0..7
map to the kinds, anything else fails. -/
def Kind.tryFrom (c : Nat) : Option Kind :=
  if c = 0 then some .Persona
  else if c = 1 then some .Group
  else if c = 2 then some .Service
  else if c = 3 then some .Domain
  else if c = 4 then some .Policy
  else if c = 5 then some .Property
  else if c = 6 then some .Attribute
  else if c = 7 then some .Directory
  else none

/-- The subset `Entity = {Persona, Group, Service}` of `id.rs`
(`subset::Entity`), as its own type: a Rust `EntityId = DynamicId<Entity>`
can only hold these kinds. -/
inductive EntityKind where
  | Persona
  | Group
  | Service
deriving DecidableEq, Repr

/-- The `Kind` corresponding to an `EntityKind`. -/
def EntityKind.toKind : EntityKind → Kind
  | .Persona => .Persona
  | .Group => .Group
  | .Service => .Service

/-- Discriminant byte of an entity kind (`Kind as u8`). -/
def EntityKind.kindByte : EntityKind → Nat
  | .Persona => 0
  | .Group => 1
  | .Service => 2

/-- `Entity::contains` as a partial downcast: the entity kinds succeed,
`Domain`, `Policy`, `Property`, `Attribute` and `Directory` fail.
`DynamicId::<Entity>::new` panics exactly when this is `none`. -/
def Kind.toEntityKind : Kind → Option EntityKind
  | .Persona => some .Persona
  | .Group => some .Group
  | .Service => some .Service
  | _ => none

/-- `EntityId = DynamicId<subset::Entity>`: an entity kind plus the
128-bit value `u128::from_be_bytes(id)`. Equality compares kind and
value, as the derived `PartialEq` on `DynamicId` does. -/
structure EntityId where
  kind : EntityKind
  id : Nat
deriving DecidableEq, Repr

/-- `PolicyValue` from `policy/code.rs`. -/
inductive PolicyValue where
  | Deny
  | Allow
deriving DecidableEq, Repr

/-- `impl From<bool> for PolicyValue`: `false ↦ Deny`, `true ↦ Allow`. -/
def PolicyValue.ofBool (b : Bool) : PolicyValue :=
  match b with
  | false => .Deny
  | true => .Allow

/-- `EvalError` from `policy/engine.rs`: `Program` for encoding errors,
`TypeError` for the source's `Type` variant (a Lean keyword). -/
inductive EvalError where
  | Program
  | TypeError
deriving DecidableEq, Repr

/-- `StackItem` from `policy/engine.rs`. The `AttrIdSet` variant holds
the referenced attribute set by value (the sets are immutable during
evaluation). -/
inductive StackItem where
  | Uint (v : Nat)
  | AttrIdSet (s : List Nat)
  | EntityId (e : EntityId)
  | AttrId (a : Nat)
deriving DecidableEq, Repr

/-- `AccessControlParams` from `policy/engine.rs`: the `*_eids` maps are
association lists `PropId value ↦ EntityId`, the attribute sets are
lists with membership semantics. -/
structure AccessControlParams where
  subjectEids : List (Nat × EntityId)
  subjectAttrs : List Nat
  resourceEids : List (Nat × EntityId)
  resourceAttrs : List Nat
deriving DecidableEq, Repr

/-- `AccessControlParams::default()`. -/
def emptyParams : AccessControlParams := ⟨[], [], [], []⟩

/-- Outcome of `eval_policy`: a returned boolean (produced only by the
`Return` instruction), an `EvalError`, or a Rust panic. -/
inductive PolicyResult where
  | returned (b : Bool)
  | errored (e : EvalError)
  | panicked
deriving DecidableEq, Repr

/-- Lookup in an association-list map (`FnvHashMap::get`). -/
def mlookup {β : Type} : List (Nat × β) → Nat → Option β
  | [], _ => none
  | (k0, v) :: t, k => if k0 = k then some v else mlookup t k

/-- Insert-or-overwrite in an association-list map
(`FnvHashMap::insert`). -/
def mapInsert {β : Type} : List (Nat × β) → Nat → β → List (Nat × β)
  | [], k, v => [(k, v)]
  | (k0, v0) :: t, k, v =>
    if k0 = k then (k0, v) :: t else (k0, v0) :: mapInsert t k v

/-- Big-endian value of a byte list (`u128::from_be_bytes`, generalized
to any length). -/
def beVal : List Nat → Nat
  | [] => 0
  | b :: t => b * 256 ^ t.length + beVal t

/-- `ReadBytesExt::read_u128::<BigEndian>` on a byte slice: consumes
exactly 16 bytes and interprets them as a big-endian integer; fails (an
`io::Error`, mapped to `EvalError::Program`) when fewer than 16 bytes
remain. -/
def readU128 (pc : List Nat) : Option (Nat × List Nat) :=
  if 16 ≤ pc.length then some (beVal (pc.take 16), pc.drop 16) else none

/-- The `IsEq` comparison from `eval_policy`: equal ids, equal entity
ids, set membership for a set/id pair in either order, and `false` for
every other combination (the source's `_ => false` arm). -/
def isEqTest : StackItem → StackItem → Bool
  | .AttrId a, .AttrId b => decide (a = b)
  | .EntityId a, .EntityId b => decide (a = b)
  | .AttrIdSet s, .AttrId i => decide (i ∈ s)
  | .AttrId i, .AttrIdSet s => decide (i ∈ s)
  | _, _ => false

/-- The `Bytecode` opcode enum from `policy/code.rs` (numeric values
0..12, `LoadConstAttrId = 4`, `LoadConstEntityId = 5`). -/
inductive Bytecode where
  | LoadSubjectId
  | LoadSubjectAttrs
  | LoadResourceId
  | LoadResourceAttrs
  | LoadConstAttrId
  | LoadConstEntityId
  | IsEq
  | SupersetOf
  | IdSetContains
  | And
  | Or
  | Not
  | Return
deriving DecidableEq, Repr

/-- Numeric opcode of a `Bytecode` (the `#[repr(u8)]` values). -/
def Bytecode.code : Bytecode → Nat
  | .LoadSubjectId => 0
  | .LoadSubjectAttrs => 1
  | .LoadResourceId => 2
  | .LoadResourceAttrs => 3
  | .LoadConstAttrId => 4
  | .LoadConstEntityId => 5
  | .IsEq => 6
  | .SupersetOf => 7
  | .IdSetContains => 8
  | .And => 9
  | .Or => 10
  | .Not => 11
  | .Return => 12

/-- `Bytecode::try_from(u8)` (derived `IntEnum` conversion). -/
def Bytecode.tryFrom (c : Nat) : Option Bytecode :=
  if c = 0 then some .LoadSubjectId
  else if c = 1 then some .LoadSubjectAttrs
  else if c = 2 then some .LoadResourceId
  else if c = 3 then some .LoadResourceAttrs
  else if c = 4 then some .LoadConstAttrId
  else if c = 5 then some .LoadConstEntityId
  else if c = 6 then some .IsEq
  else if c = 7 then some .SupersetOf
  else if c = 8 then some .IdSetContains
  else if c = 9 then some .And
  else if c = 10 then some .Or
  else if c = 11 then some .Not
  else if c = 12 then some .Return
  else none

/-- The loop body of `eval_policy`, with explicit fuel for structural
recursion. Every iteration consumes at least one byte of `pc`, so any
`fuel ≥ pc.length` yields the source behaviour; when both the program
and the fuel run out the result is the source's fallthrough
`Err(EvalError::Program)`. Each arm mirrors the corresponding `match
code` arm of the source, including the order of reads and checks (for
`LoadConstEntityId`: kind byte via `Kind::try_from`, then the 16-byte
big-endian read, then the `DynamicId::new` subset check, which panics
for a valid non-entity kind). -/
def evalGo (params : AccessControlParams) :
    Nat → List Nat → List StackItem → PolicyResult
  | 0, _, _ => .errored .Program
  | _ + 1, [], _ => .errored .Program
  | fuel + 1, c :: pc, stack =>
    match Bytecode.tryFrom c with
    | none => .errored .Program
    | some bc =>
      match bc with
      | .LoadSubjectId =>
        match readU128 pc with
        | none => .errored .Program
        | some (v, rest) =>
          match mlookup params.subjectEids v with
          | none => .errored .TypeError
          | some eid => evalGo params fuel rest (.EntityId eid :: stack)
      | .LoadSubjectAttrs =>
        evalGo params fuel pc (.AttrIdSet params.subjectAttrs :: stack)
      | .LoadResourceId =>
        match readU128 pc with
        | none => .errored .Program
        | some (v, rest) =>
          match mlookup params.resourceEids v with
          | none => .errored .TypeError
          | some eid => evalGo params fuel rest (.EntityId eid :: stack)
      | .LoadResourceAttrs =>
        evalGo params fuel pc (.AttrIdSet params.resourceAttrs :: stack)
      | .LoadConstAttrId =>
        match readU128 pc with
        | none => .errored .Program
        | some (v, rest) => evalGo params fuel rest (.AttrId v :: stack)
      | .LoadConstEntityId =>
        match pc with
        | [] => .errored .Program
        | kb :: pc2 =>
          match Kind.tryFrom kb with
          | none => .errored .TypeError
          | some kind =>
            match readU128 pc2 with
            | none => .errored .Program
            | some (v, rest) =>
              match kind.toEntityKind with
              | some ek => evalGo params fuel rest (.EntityId ⟨ek, v⟩ :: stack)
              | none => .panicked
      | .IsEq =>
        match stack with
        | a :: b :: rest =>
          evalGo params fuel pc (.Uint (if isEqTest a b then 1 else 0) :: rest)
        | _ => .errored .TypeError
      | .SupersetOf =>
        match stack with
        | .AttrIdSet a :: tail =>
          match tail with
          | .AttrIdSet b :: rest =>
            evalGo params fuel pc
              (.Uint (if b.all (fun x => decide (x ∈ a)) then 1 else 0) :: rest)
          | _ => .errored .TypeError
        | _ => .errored .TypeError
      | .IdSetContains =>
        match stack with
        | a :: b :: rest =>
          match a, b with
          | .AttrIdSet s, .AttrId i =>
            evalGo params fuel pc (.Uint (if i ∈ s then 1 else 0) :: rest)
          | _, _ => .errored .TypeError
        | _ => .errored .TypeError
      | .And =>
        match stack with
        | .Uint rhs :: .Uint lhs :: rest =>
          evalGo params fuel pc
            (.Uint (if 0 < rhs ∧ 0 < lhs then 1 else 0) :: rest)
        | _ => .errored .TypeError
      | .Or =>
        match stack with
        | .Uint rhs :: .Uint lhs :: rest =>
          evalGo params fuel pc
            (.Uint (if 0 < rhs ∨ 0 < lhs then 1 else 0) :: rest)
        | _ => .errored .TypeError
      | .Not =>
        match stack with
        | .Uint v :: rest =>
          evalGo params fuel pc (.Uint (if 0 < v then 0 else 1) :: rest)
        | _ => .errored .TypeError
      | .Return =>
        match stack with
        | .Uint u :: _ => .returned (decide (0 < u))
        | _ => .errored .TypeError

/-- `eval_policy(pc, params)` from `policy/engine.rs`: run the
instruction loop on the byte program with an empty stack. -/
def evalPolicy (pc : List Nat) (params : AccessControlParams) : PolicyResult :=
  evalGo params pc.length pc []

example : evalPolicy [1, 1, 6, 12] emptyParams = .returned false := by decide
example : evalPolicy [12] emptyParams = .errored .TypeError := by decide
example : evalPolicy [] emptyParams = .errored .Program := by decide
example : evalPolicy (5 :: 3 :: List.replicate 16 0) emptyParams = .panicked := by
  decide

/-- One step of LEB128 encoding (`unsigned_varint::encode::u128`), with
fuel for structural recursion; any `fuel ≥ v` computes the full
encoding: least-significant 7-bit group first, continuation bit `0x80`
on every byte but the last. -/
def varintGo : Nat → Nat → List Nat
  | 0, v => [v]
  | fuel + 1, v =>
    if v < 128 then [v] else (v % 128 + 128) :: varintGo fuel (v / 128)

/-- `unsigned_varint::encode::u128`: minimal LEB128 encoding. -/
def varint (v : Nat) : List Nat := varintGo v v

example : varint 0 = [0] := by decide
example : varint 1536 = [128, 12] := by decide

/-- The typed `OpCode` enum from `policy/code.rs`. `PropId` and `AttrId`
payloads are carried as their `u128` values (`to_uint`), an `EntityId`
payload as kind plus value. -/
inductive OpCode where
  | LoadSubjectId (propId : Nat)
  | LoadSubjectAttrs
  | LoadResourceId (propId : Nat)
  | LoadResourceAttrs
  | LoadConstEntityId (eid : EntityId)
  | LoadConstAttrId (attrId : Nat)
  | IsEq
  | SupersetOf
  | IdSetContains
  | And
  | Or
  | Not
  | Return
deriving DecidableEq, Repr

/-- Byte encoding of a single opcode, as `to_bytecode` emits it: the
1-byte numeric opcode, then for the `Load*Id` forms the varint128 of the
immediate; `LoadConstEntityId` first emits the entity-kind byte
(`eid.kind().into()`), then the varint of `u128::from_be_bytes(eid.id)`. -/
def opBytes : OpCode → List Nat
  | .LoadSubjectId propId => 0 :: varint propId
  | .LoadSubjectAttrs => [1]
  | .LoadResourceId propId => 2 :: varint propId
  | .LoadResourceAttrs => [3]
  | .LoadConstEntityId eid => 5 :: eid.kind.kindByte :: varint eid.id
  | .LoadConstAttrId attrId => 4 :: varint attrId
  | .IsEq => [6]
  | .SupersetOf => [7]
  | .IdSetContains => [8]
  | .And => [9]
  | .Or => [10]
  | .Not => [11]
  | .Return => [12]

/-- `to_bytecode` from `policy/code.rs`: concatenation of the per-opcode
encodings, in order. -/
def toBytecode : List OpCode → List Nat
  | [] => []
  | op :: rest => opBytes op ++ toBytecode rest

example :
    toBytecode [.LoadConstEntityId ⟨.Persona, 0⟩, .LoadConstEntityId ⟨.Persona, 0⟩,
      .IsEq, .Return] = [5, 0, 0, 5, 0, 0, 6, 12] := by decide

/-- Ordered duplicate-free insertion, the building block of the
`BTreeSet` model. -/
def binsert (a : Nat) : List Nat → List Nat
  | [] => [a]
  | b :: t =>
    if a < b then a :: b :: t
    else if a = b then b :: t
    else b :: binsert a t

/-- `BTreeSet::from_iter`: sorted duplicate-free list of the input's
elements. -/
def bset (l : List Nat) : List Nat := l.foldl (fun s a => binsert a s) []

example : bset [13, 12, 13] = [12, 13] := by decide

/-- A compiled `Policy` (`class` is a Lean keyword, stored as
`pclass`). -/
structure Policy where
  pclass : PolicyValue
  bytecode : List Nat
deriving DecidableEq, Repr

/-- `PolicyTrigger`: both `BTreeSet` fields as sorted duplicate-free
lists. -/
structure PolicyTrigger where
  attrMatcher : List Nat
  policyIds : List Nat
deriving DecidableEq, Repr

/-- `PolicyEngine`: policies keyed by `PolicyId` value, trigger groups
keyed by the representative `AttrId` value. -/
structure PolicyEngine where
  policies : List (Nat × Policy)
  triggerGroups : List (Nat × List PolicyTrigger)
deriving DecidableEq, Repr

/-- `PolicyEngine::default()`. -/
def PolicyEngine.empty : PolicyEngine := ⟨[], []⟩

/-- `PolicyEngine::add_policy`. -/
def PolicyEngine.addPolicy (e : PolicyEngine) (id : Nat) (pclass : PolicyValue)
    (bytecode : List Nat) : PolicyEngine :=
  { e with policies := mapInsert e.policies id ⟨pclass, bytecode⟩ }

/-- `trigger_groups.entry(key).or_default().push(t)`. -/
def groupsPush : List (Nat × List PolicyTrigger) → Nat → PolicyTrigger →
    List (Nat × List PolicyTrigger)
  | [], k, t => [(k, [t])]
  | (k0, ts) :: rest, k, t =>
    if k0 = k then (k0, ts ++ [t]) :: rest else (k0, ts) :: groupsPush rest k t

/-- `PolicyEngine::add_trigger`: normalize both argument collections to
`BTreeSet`s; if the matcher is empty do nothing, otherwise push the
trigger under its first (least) attribute. -/
def PolicyEngine.addTrigger (e : PolicyEngine) (attrMatcher policyIds : List Nat) :
    PolicyEngine :=
  match bset attrMatcher with
  | [] => e
  | first :: rest =>
    { e with
      triggerGroups :=
        groupsPush e.triggerGroups first ⟨first :: rest, bset policyIds⟩ }

/-- `PolicyEngine::get_policy_count`. -/
def PolicyEngine.getPolicyCount (e : PolicyEngine) : Nat := e.policies.length

/-- `PolicyEngine::get_trigger_count`: sum of the per-key trigger-list
lengths. -/
def PolicyEngine.getTriggerCount (e : PolicyEngine) : Nat :=
  (e.triggerGroups.map (fun p => p.2.length)).sum

/-- The `EvalCtx` accumulator of applicable policies, one
association-list map per class. -/
structure EvalCtx where
  applicableAllow : List (Nat × Policy)
  applicableDeny : List (Nat × Policy)
deriving DecidableEq, Repr

/-- The `matches` set a multi-attribute trigger builds in
`collect_applicable`: iterate the subject attributes then the resource
attributes and collect (into a `BTreeSet`) those contained in the
trigger's matcher. -/
def buildMatches (params : AccessControlParams) (matcher : List Nat) : List Nat :=
  (params.subjectAttrs ++ params.resourceAttrs).foldl
    (fun s a => if a ∈ matcher then binsert a s else s) []

/-- Whether a trigger applies in `collect_applicable`: a multi-attribute
matcher requires `matches == attr_matcher`; a single-attribute matcher
(or smaller) skips the check entirely. -/
def triggerApplies (t : PolicyTrigger) (params : AccessControlParams) : Bool :=
  if 1 < t.attrMatcher.length then
    decide (buildMatches params t.attrMatcher = t.attrMatcher)
  else true

/-- Register one policy id of an applying trigger: look it up in the
engine (a missing policy is logged and skipped) and insert it into the
bucket matching its class. -/
def regStep (e : PolicyEngine) (ctx : EvalCtx) (pid : Nat) : EvalCtx :=
  match mlookup e.policies pid with
  | none => ctx
  | some pol =>
    match pol.pclass with
    | .Deny => { ctx with applicableDeny := mapInsert ctx.applicableDeny pid pol }
    | .Allow => { ctx with applicableAllow := mapInsert ctx.applicableAllow pid pol }

/-- Register all of one applying trigger's policies. -/
def registerPolicies (e : PolicyEngine) (t : PolicyTrigger) (ctx : EvalCtx) :
    EvalCtx :=
  t.policyIds.foldl (regStep e) ctx

/-- `PolicyEngine::collect_applicable` for one attribute: look up the
trigger group keyed on it and register the policies of every trigger
that applies. -/
def collectApplicable (e : PolicyEngine) (attr : Nat)
    (params : AccessControlParams) (ctx : EvalCtx) : EvalCtx :=
  match mlookup e.triggerGroups attr with
  | none => ctx
  | some ts =>
    ts.foldl
      (fun ctx t => if triggerApplies t params then registerPolicies e t ctx else ctx)
      ctx

/-- The applicable-policy buckets `eval` builds: `collect_applicable`
over every subject attribute, then every resource attribute. -/
def applicableCtx (e : PolicyEngine) (params : AccessControlParams) : EvalCtx :=
  (params.subjectAttrs ++ params.resourceAttrs).foldl
    (fun ctx a => collectApplicable e a params ctx) ⟨[], []⟩

/-- `eval_policies_disjunctive`: evaluate the bucket's policies in
order, short-circuiting on the first `true`; an evaluation error (or
panic) aborts and propagates. -/
def evalPoliciesDisjunctive : List (Nat × Policy) → AccessControlParams →
    PolicyResult
  | [], _ => .returned false
  | pr :: rest, params =>
    match evalPolicy pr.2.bytecode params with
    | .returned true => .returned true
    | .returned false => evalPoliciesDisjunctive rest params
    | .errored er => .errored er
    | .panicked => .panicked

/-- Outcome of `PolicyEngine::eval`: `Ok(PolicyValue)`, `Err(EvalError)`
or a panic propagated from `eval_policy`. -/
inductive EvalOutcome where
  | ok (v : PolicyValue)
  | error (e : EvalError)
  | panicked
deriving DecidableEq, Repr

/-- `PolicyEngine::eval`: collect the applicable buckets, then combine
them exactly as the source's `match (has_allow, has_deny)` does,
including the fallback scan for a common subject/resource attribute. -/
def PolicyEngine.eval (e : PolicyEngine) (params : AccessControlParams) :
    EvalOutcome :=
  let ctx := applicableCtx e params
  match ctx.applicableAllow.isEmpty, ctx.applicableDeny.isEmpty with
  | true, true =>
    if params.subjectAttrs.any (fun a => decide (a ∈ params.resourceAttrs)) then
      .ok .Allow
    else .ok .Deny
  | false, true =>
    match evalPoliciesDisjunctive ctx.applicableAllow params with
    | .returned isAllow => .ok (PolicyValue.ofBool isAllow)
    | .errored er => .error er
    | .panicked => .panicked
  | true, false =>
    match evalPoliciesDisjunctive ctx.applicableDeny params with
    | .returned isDeny => .ok (PolicyValue.ofBool (!isDeny))
    | .errored er => .error er
    | .panicked => .panicked
  | false, false =>
    match evalPoliciesDisjunctive ctx.applicableAllow params with
    | .returned false => .ok .Deny
    | .returned true =>
      match evalPoliciesDisjunctive ctx.applicableDeny params with
      | .returned isDeny => .ok (PolicyValue.ofBool (!isDeny))
      | .errored er => .error er
      | .panicked => .panicked
    | .errored er => .error er
    | .panicked => .panicked

/-- Scenario 1 attribute ids: `FOO`, `BAR`, `BAZ`, `QUX` as four
distinct attribute values. -/
def attrFOO : Nat := 10

/-- Scenario attribute `BAR`. -/
def attrBAR : Nat := 11

/-- Scenario attribute `BAZ`. -/
def attrBAZ : Nat := 12

/-- Scenario attribute `QUX`. -/
def attrQUX : Nat := 13

/-- The always-true scenario policy `POL_AT`:
`to_bytecode([LoadConstEntityId(e0); LoadConstEntityId(e0); IsEq; Return])`
with `e0` the Persona entity id of value 0. -/
def polATBytecode : List Nat :=
  toBytecode
    [.LoadConstEntityId ⟨.Persona, 0⟩, .LoadConstEntityId ⟨.Persona, 0⟩,
     .IsEq, .Return]

/-- The always-false scenario policy `POL_AF`: same shape with two
distinct constant entity ids. -/
def polAFBytecode : List Nat :=
  toBytecode
    [.LoadConstEntityId ⟨.Persona, 0⟩, .LoadConstEntityId ⟨.Persona, 1⟩,
     .IsEq, .Return]

/-- The scenario engine of claim C1: `POL_AT` (id 1) and `POL_AF` (id 2),
both of class Allow, with triggers `[FOO] → {POL_AF}`, `[BAR] → {POL_AT}`
and `[BAZ, QUX] → {POL_AF, POL_AT}`. -/
def scenarioEngine : PolicyEngine :=
  ((((PolicyEngine.empty.addPolicy 1 .Allow polATBytecode).addPolicy
      2 .Allow polAFBytecode).addTrigger
      [attrFOO] [2]).addTrigger
      [attrBAR] [1]).addTrigger
      [attrBAZ, attrQUX] [2, 1]

/-- Access-control parameters carrying only resource attributes, as the
scenario's evaluations do. -/
def resourceParams (attrs : List Nat) : AccessControlParams :=
  ⟨[], [], [], attrs⟩

/-- Claim C1 (code bug): in the allow-class scenario the claim expects
`{} → Deny`, `{FOO} → Deny`, `{BAR} → Allow`, `{BAZ,QUX} → Allow` and
`{BAZ} → Deny`, all as successful results. On the code, the evaluations
that actually run a policy return `Err(Program)` instead, because
`eval_policy` decodes each `LoadConstEntityId` immediate as a fixed
16-byte big-endian `u128` while `to_bytecode` emitted a 1-byte varint:
the read runs past the end of the 8-byte program. Only the two
fallback/no-trigger cases return the claimed `Deny`. -/
theorem c1_allow_class_scenario :
    scenarioEngine.eval (resourceParams []) = .ok .Deny
    ∧ scenarioEngine.eval (resourceParams [attrFOO]) = .error .Program
    ∧ scenarioEngine.eval (resourceParams [attrBAR]) = .error .Program
    ∧ scenarioEngine.eval (resourceParams [attrBAZ, attrQUX]) = .error .Program
    ∧ scenarioEngine.eval (resourceParams [attrBAZ]) = .ok .Deny := by
  decide

/-- Claim C3 (code bug): evaluation is not total. The byte sequence
`[5, 3, 0 × 16]` — `LoadConstEntityId` with kind byte 3 (`Kind::Domain`,
accepted by `Kind::try_from`) and a full 16-byte immediate — drives
`eval_policy` into `EntityId::new(Domain, …)`, i.e. `DynamicId::new`,
which panics ("Not in subset") instead of returning a boolean or a
`Program`/`Type` error. -/
theorem c3_domain_kind_panics :
    evalPolicy (5 :: 3 :: List.replicate 16 0) emptyParams = .panicked := by
  decide

/-- Claim C10: `add_trigger` with an empty required-attribute set leaves
the engine unchanged — the same engine value, hence the same trigger
count and the same `eval` result on every parameter set. -/
theorem c10_empty_trigger_is_noop (e : PolicyEngine) (policyIds : List Nat) :
    e.addTrigger [] policyIds = e
    ∧ (e.addTrigger [] policyIds).getTriggerCount = e.getTriggerCount
    ∧ ∀ params : AccessControlParams,
        (e.addTrigger [] policyIds).eval params = e.eval params := by
  refine ⟨rfl, rfl, fun _ => rfl⟩

/-- LEB128 decoder matching `varint`: a byte below 128 ends the value,
a byte with the continuation bit contributes its low 7 bits. -/
def parseVarint : List Nat → Option (Nat × List Nat)
  | [] => none
  | b :: rest =>
    if b < 128 then some (b, rest)
    else
      match parseVarint rest with
      | some (v, r) => some (b - 128 + 128 * v, r)
      | none => none

theorem parseVarint_varintGo (fuel : Nat) :
    ∀ v rest, v ≤ fuel → parseVarint (varintGo fuel v ++ rest) = some (v, rest) := by
  induction fuel with
  | zero =>
    intro v rest hv
    interval_cases v
    simp [varintGo, parseVarint]
  | succ fuel ih =>
    intro v rest hv
    by_cases h : v < 128
    · simp [varintGo, h, parseVarint]
    · have h128 : 128 ≤ v := le_of_not_lt h
      have hdiv : v / 128 ≤ fuel := by
        have : v / 128 < v := Nat.div_lt_self (by omega) (by omega)
        omega
      simp only [varintGo, h, if_false, List.cons_append, parseVarint]
      rw [if_neg (by omega), ih (v / 128) rest hdiv]
      have h1 : v % 128 + 128 - 128 + 128 * (v / 128) = v := by
        have := Nat.mod_add_div v 128
        omega
      have h2 : v % 128 + 128 * (v / 128) = v := by
        have := Nat.mod_add_div v 128
        omega
      simp [h1, h2]

theorem parseVarint_varint (v : Nat) (rest : List Nat) :
    parseVarint (varint v ++ rest) = some (v, rest) :=
  parseVarint_varintGo v v rest le_rfl

/-- Inverse of `EntityKind.kindByte`. -/
def entityKindFromByte (b : Nat) : Option EntityKind :=
  if b = 0 then some .Persona
  else if b = 1 then some .Group
  else if b = 2 then some .Service
  else none

/-- Decode one instruction of the `to_bytecode` format: the 1-byte
opcode, then a varint immediate for the `Load*Id` forms, with the extra
leading entity-kind byte for `LoadConstEntityId`. -/
def parseOp : List Nat → Option (OpCode × List Nat)
  | [] => none
  | c :: rest =>
    match Bytecode.tryFrom c with
    | none => none
    | some .LoadSubjectId =>
      (parseVarint rest).map (fun p => (.LoadSubjectId p.1, p.2))
    | some .LoadSubjectAttrs => some (.LoadSubjectAttrs, rest)
    | some .LoadResourceId =>
      (parseVarint rest).map (fun p => (.LoadResourceId p.1, p.2))
    | some .LoadResourceAttrs => some (.LoadResourceAttrs, rest)
    | some .LoadConstAttrId =>
      (parseVarint rest).map (fun p => (.LoadConstAttrId p.1, p.2))
    | some .LoadConstEntityId =>
      match rest with
      | [] => none
      | kb :: r2 =>
        match entityKindFromByte kb with
        | none => none
        | some ek =>
          (parseVarint r2).map (fun p => (.LoadConstEntityId ⟨ek, p.1⟩, p.2))
    | some .IsEq => some (.IsEq, rest)
    | some .SupersetOf => some (.SupersetOf, rest)
    | some .IdSetContains => some (.IdSetContains, rest)
    | some .And => some (.And, rest)
    | some .Or => some (.Or, rest)
    | some .Not => some (.Not, rest)
    | some .Return => some (.Return, rest)

theorem parseOp_opBytes (op : OpCode) (t : List Nat) :
    parseOp (opBytes op ++ t) = some (op, t) := by
  cases op with
  | LoadSubjectId p =>
    simp [opBytes, parseOp, Bytecode.tryFrom, parseVarint_varint]
  | LoadResourceId p =>
    simp [opBytes, parseOp, Bytecode.tryFrom, parseVarint_varint]
  | LoadConstAttrId a =>
    simp [opBytes, parseOp, Bytecode.tryFrom, parseVarint_varint]
  | LoadConstEntityId eid =>
    cases eid with
    | mk kind id =>
      cases kind <;>
        simp [opBytes, parseOp, Bytecode.tryFrom, EntityKind.kindByte,
          entityKindFromByte, parseVarint_varint]
  | _ => simp [opBytes, parseOp, Bytecode.tryFrom]

theorem opBytes_cons (op : OpCode) : ∃ c cs, opBytes op = c :: cs := by
  cases op <;> exact ⟨_, _, rfl⟩

/-- Decode a whole program, with fuel for structural recursion; any
`fuel ≥ l.length` decodes the full instruction sequence. -/
def parseGo : Nat → List Nat → Option (List OpCode)
  | _, [] => some []
  | 0, _ :: _ => none
  | fuel + 1, c :: r0 =>
    match parseOp (c :: r0) with
    | none => none
    | some (op, r) =>
      match parseGo fuel r with
      | none => none
      | some ops => some (op :: ops)

/-- The parse function of claim C2: decode a byte program back to its
opcode sequence. -/
def parseBytecode (l : List Nat) : Option (List OpCode) := parseGo l.length l

theorem parseGo_toBytecode (ops : List OpCode) :
    ∀ fuel, (toBytecode ops).length ≤ fuel →
      parseGo fuel (toBytecode ops) = some ops := by
  induction ops with
  | nil => intro fuel _; cases fuel <;> rfl
  | cons op rest ih =>
    intro fuel hlen
    obtain ⟨c, cs, hc⟩ := opBytes_cons op
    have hlen1 : (toBytecode rest).length + 1 ≤ fuel := by
      have := hlen
      simp only [toBytecode, List.length_append, hc, List.length_cons] at this
      omega
    obtain ⟨fuel, rfl⟩ : ∃ f, fuel = f + 1 := ⟨fuel - 1, by omega⟩
    have hsplit : toBytecode (op :: rest) = c :: (cs ++ toBytecode rest) := by
      simp [toBytecode, hc]
    rw [hsplit]
    have hop : parseOp (c :: (cs ++ toBytecode rest)) = some (op, toBytecode rest) := by
      have := parseOp_opBytes op (toBytecode rest)
      rwa [hc, List.cons_append] at this
    simp only [parseGo, hop]
    rw [ih fuel (by omega)]

/-- Claim C2: the bytecode encoder is invertible — `parseBytecode`
recovers exactly the original opcode sequence from `toBytecode`'s
output, for every opcode sequence (hence `to_bytecode` is injective and
its 1-byte-opcode / varint128-immediate format, with the extra kind byte
on `LoadConstEntityId`, is decodable). -/
theorem c2_bytecode_roundtrip (ops : List OpCode) :
    parseBytecode (toBytecode ops) = some ops :=
  parseGo_toBytecode ops _ le_rfl

/-- Whether at least one policy of a bucket evaluates to `1` (spec §4.C
step 3: a bucket is "true" iff at least one of its policies evaluates to
`1`). -/
def bucketHasTrue (L : List (Nat × Policy)) (params : AccessControlParams) : Bool :=
  L.any (fun pr => decide (evalPolicy pr.2.bytecode params = .returned true))

theorem evalPoliciesDisjunctive_all_returned (params : AccessControlParams) :
    ∀ L : List (Nat × Policy),
      (∀ pr ∈ L, ∃ b, evalPolicy pr.2.bytecode params = .returned b) →
      evalPoliciesDisjunctive L params = .returned (bucketHasTrue L params) := by
  intro L
  induction L with
  | nil => intro _; rfl
  | cons pr rest ih =>
    intro h
    obtain ⟨b, hb⟩ := h pr (List.mem_cons_self pr rest)
    have hrest := ih (fun q hq => h q (List.mem_cons_of_mem pr hq))
    cases b with
    | true => simp [evalPoliciesDisjunctive, hb, bucketHasTrue]
    | false => simp [evalPoliciesDisjunctive, hb, bucketHasTrue, hrest]

/-- The outcome table of spec §4.C step 4, written as the spec states
it: fallback on two empty buckets, disjunctive allow bucket alone,
disjunctive deny bucket alone, and allow-then-deny when both are
non-empty. This definition follows the spec's words; claim C4 compares
`PolicyEngine.eval` against it. -/
def specOutcome (e : PolicyEngine) (params : AccessControlParams) : PolicyValue :=
  let A := (applicableCtx e params).applicableAllow
  let D := (applicableCtx e params).applicableDeny
  if A.isEmpty then
    if D.isEmpty then
      if params.subjectAttrs.any (fun a => decide (a ∈ params.resourceAttrs)) then
        .Allow
      else .Deny
    else if bucketHasTrue D params then .Deny else .Allow
  else
    if D.isEmpty then
      if bucketHasTrue A params then .Allow else .Deny
    else
      if !bucketHasTrue A params then .Deny
      else if bucketHasTrue D params then .Deny
      else .Allow

/-- Claim C4: assuming every applicable policy's bytecode evaluates
without error, `PolicyEngine::eval` combines the allow and deny buckets
exactly as the spec's outcome table prescribes: both empty — Allow iff
the subject and resource attributes intersect; only allow non-empty —
Allow iff some allow policy evaluates to 1; only deny non-empty — Deny
iff some deny policy evaluates to 1; both non-empty — Deny unless some
allow policy is true and no deny policy is true. -/
theorem c4_bucket_combination (e : PolicyEngine) (params : AccessControlParams)
    (hA : ∀ pr ∈ (applicableCtx e params).applicableAllow,
      ∃ b, evalPolicy pr.2.bytecode params = .returned b)
    (hD : ∀ pr ∈ (applicableCtx e params).applicableDeny,
      ∃ b, evalPolicy pr.2.bytecode params = .returned b) :
    e.eval params = .ok (specOutcome e params) := by
  have hdA := evalPoliciesDisjunctive_all_returned params _ hA
  have hdD := evalPoliciesDisjunctive_all_returned params _ hD
  unfold PolicyEngine.eval specOutcome
  cases hAe : (applicableCtx e params).applicableAllow.isEmpty <;>
    cases hDe : (applicableCtx e params).applicableDeny.isEmpty <;>
      simp only [hAe, hDe, hdA, hdD]
  · cases hbA : bucketHasTrue (applicableCtx e params).applicableAllow params <;>
      cases hbD : bucketHasTrue (applicableCtx e params).applicableDeny params <;>
        simp [hbA, hbD, PolicyValue.ofBool]
  · cases hbA : bucketHasTrue (applicableCtx e params).applicableAllow params <;>
      simp [hbA, PolicyValue.ofBool]
  · cases hbD : bucketHasTrue (applicableCtx e params).applicableDeny params <;>
      simp [hbD, PolicyValue.ofBool]
  · simp only [if_true]
    cases params.subjectAttrs.any (fun a => decide (a ∈ params.resourceAttrs)) <;> simp

/-- A small engine for exercising `c4_bucket_combination`: one Allow
policy whose program `[1,1,6,12]` compares two attribute sets (hence
returns false) behind a single-attribute trigger. -/
def smallAllowEngine : PolicyEngine :=
  (PolicyEngine.empty.addPolicy 1 .Allow [1, 1, 6, 12]).addTrigger [7] [1]

theorem c4_bucket_combination_witness :
    smallAllowEngine.eval (resourceParams [7]) = .ok PolicyValue.Deny :=
  (c4_bucket_combination smallAllowEngine (resourceParams [7])
      (by decide) (by decide)).trans (by decide)

/-- The operand combinations the spec lists as accepted by `IsEq`:
`(EntityId,EntityId)`, `(AttrId,AttrId)`, `(AttrSet,AttrId)` and
`(AttrId,AttrSet)`. -/
def GoodIsEqPair (a b : StackItem) : Prop :=
  (∃ x y, a = .AttrId x ∧ b = .AttrId y)
  ∨ (∃ x y, a = .EntityId x ∧ b = .EntityId y)
  ∨ (∃ s i, a = .AttrIdSet s ∧ b = .AttrId i)
  ∨ (∃ i s, a = .AttrId i ∧ b = .AttrIdSet s)

/-- Claim C6 (amended): `IsEq` pops two operands and always succeeds,
pushing the comparison result: equality on two `AttrId`s or two
`EntityId`s, membership for a set paired with an `AttrId` in either
order — and for every other combination it pushes `false` (the source's
`_ => false` arm) instead of raising the Type error the spec claims. -/
theorem c6_iseq_mixed_operands :
    (∀ (params : AccessControlParams) (fuel : Nat) (pc : List Nat)
        (a b : StackItem) (st : List StackItem),
      evalGo params (fuel + 1) (6 :: pc) (a :: b :: st) =
        evalGo params fuel pc (.Uint (if isEqTest a b then 1 else 0) :: st))
    ∧ (∀ x y, isEqTest (.AttrId x) (.AttrId y) = decide (x = y))
    ∧ (∀ x y, isEqTest (.EntityId x) (.EntityId y) = decide (x = y))
    ∧ (∀ s i, isEqTest (.AttrIdSet s) (.AttrId i) = decide (i ∈ s)
        ∧ isEqTest (.AttrId i) (.AttrIdSet s) = decide (i ∈ s))
    ∧ (∀ a b, ¬GoodIsEqPair a b → isEqTest a b = false) := by
  refine ⟨fun _ _ _ _ _ _ => rfl, fun _ _ => rfl, fun _ _ => rfl,
    fun _ _ => ⟨rfl, rfl⟩, ?_⟩
  intro a b hng
  cases a <;> cases b <;> first
    | rfl
    | exact absurd (by simp [GoodIsEqPair]) hng

theorem c6_iseq_mixed_operands_witness :
    ¬GoodIsEqPair (.Uint 0) (.Uint 1)
    ∧ isEqTest (.Uint 0) (.Uint 1) = false :=
  ⟨by simp [GoodIsEqPair],
   c6_iseq_mixed_operands.2.2.2.2 (.Uint 0) (.Uint 1) (by simp [GoodIsEqPair])⟩

/-- Claim C6, counterexample: the program `[1,1,6,12]` applies `IsEq` to
two popped `AttrIdSet` operands — a combination the claim says must
yield a Type error — yet evaluation succeeds, pushing `false` and
returning it. -/
theorem c6_iseq_counterexample :
    evalPolicy [1, 1, 6, 12] emptyParams = .returned false
    ∧ evalPolicy [1, 1, 6, 12] emptyParams ≠ .errored .TypeError := by
  decide

/-- An engine whose single Allow policy has malformed (empty) bytecode
behind a single-attribute trigger. -/
def malformedPolicyEngine : PolicyEngine :=
  (PolicyEngine.empty.addPolicy 1 .Allow []).addTrigger [7] [1]

/-- The same engine with the malformed policy absent: the trigger's
policy id resolves to nothing and is skipped. -/
def absentPolicyEngine : PolicyEngine :=
  PolicyEngine.empty.addTrigger [7] [1]

/-- Claim C7, counterexample: a malformed applicable policy is not
skipped. With the malformed Allow policy applicable, `eval` surfaces
`Err(Program)` to the caller; with the policy absent from its bucket the
same evaluation returns `Ok(Deny)` — so the outcome does not equal the
outcome with the policy absent, and the error is not internal. -/
theorem c7_malformed_policy_counterexample :
    malformedPolicyEngine.eval (resourceParams [7]) = .error .Program
    ∧ absentPolicyEngine.eval (resourceParams [7]) = .ok .Deny
    ∧ malformedPolicyEngine.eval (resourceParams [7])
        ≠ absentPolicyEngine.eval (resourceParams [7]) := by
  decide

theorem evalPoliciesDisjunctive_returned_false (params : AccessControlParams) :
    ∀ L : List (Nat × Policy),
      evalPoliciesDisjunctive L params = .returned false →
      ∀ pr ∈ L, evalPolicy pr.2.bytecode params = .returned false := by
  intro L
  induction L with
  | nil => intro _ pr h; cases h
  | cons pr0 rest ih =>
    intro hdisj pr hmem
    cases heval : evalPolicy pr0.2.bytecode params with
    | returned b =>
      cases b with
      | true => simp [evalPoliciesDisjunctive, heval] at hdisj
      | false =>
        rcases List.mem_cons.mp hmem with h | h
        · rw [h]; exact heval
        · exact ih (by simpa [evalPoliciesDisjunctive, heval] using hdisj) pr h
    | errored er => simp [evalPoliciesDisjunctive, heval] at hdisj
    | panicked => simp [evalPoliciesDisjunctive, heval] at hdisj

theorem evalPoliciesDisjunctive_returned_true (params : AccessControlParams) :
    ∀ L : List (Nat × Policy),
      evalPoliciesDisjunctive L params = .returned true →
      ∃ pr ∈ L, evalPolicy pr.2.bytecode params = .returned true := by
  intro L
  induction L with
  | nil => intro h; cases h
  | cons pr0 rest ih =>
    intro hdisj
    cases heval : evalPolicy pr0.2.bytecode params with
    | returned b =>
      cases b with
      | true => exact ⟨pr0, List.mem_cons_self pr0 rest, heval⟩
      | false =>
        obtain ⟨pr, hmem, hpr⟩ :=
          ih (by simpa [evalPoliciesDisjunctive, heval] using hdisj)
        exact ⟨pr, List.mem_cons_of_mem pr0 hmem, hpr⟩
    | errored er => simp [evalPoliciesDisjunctive, heval] at hdisj
    | panicked => simp [evalPoliciesDisjunctive, heval] at hdisj

/-- Claim C7 (amended): a malformed applicable policy is not treated as
non-applicable. When the disjunctive evaluation of a non-empty allow
bucket (respectively: of the deny bucket while the allow bucket is
empty) hits an evaluation error, `PolicyEngine::eval` returns that error
to the caller instead of skipping the policy. What survives of the claim
is that a malformed policy never produces an implicit Allow: a bucket
evaluates to `true` only through a policy that genuinely returns 1, and
to `false` only when every one of its policies genuinely returns 0. -/
theorem c7_malformed_policy_propagates :
    (∀ (params : AccessControlParams) (L : List (Nat × Policy)),
      evalPoliciesDisjunctive L params = .returned false →
      ∀ pr ∈ L, evalPolicy pr.2.bytecode params = .returned false)
    ∧ (∀ (params : AccessControlParams) (L : List (Nat × Policy)),
      evalPoliciesDisjunctive L params = .returned true →
      ∃ pr ∈ L, evalPolicy pr.2.bytecode params = .returned true)
    ∧ (∀ (e : PolicyEngine) (params : AccessControlParams) (er : EvalError),
      (applicableCtx e params).applicableAllow.isEmpty = false →
      evalPoliciesDisjunctive (applicableCtx e params).applicableAllow params
        = .errored er →
      e.eval params = .error er)
    ∧ (∀ (e : PolicyEngine) (params : AccessControlParams) (er : EvalError),
      (applicableCtx e params).applicableAllow.isEmpty = true →
      (applicableCtx e params).applicableDeny.isEmpty = false →
      evalPoliciesDisjunctive (applicableCtx e params).applicableDeny params
        = .errored er →
      e.eval params = .error er) := by
  refine ⟨fun params L => evalPoliciesDisjunctive_returned_false params L,
    fun params L => evalPoliciesDisjunctive_returned_true params L, ?_, ?_⟩
  · intro e params er hA hd
    unfold PolicyEngine.eval
    cases hD : (applicableCtx e params).applicableDeny.isEmpty <;>
      simp only [hA, hD, hd]
  · intro e params er hA hD hd
    unfold PolicyEngine.eval
    simp only [hA, hD, hd]

theorem c7_malformed_policy_propagates_witness :
    malformedPolicyEngine.eval (resourceParams [7]) = .error EvalError.Program :=
  c7_malformed_policy_propagates.2.2.1 malformedPolicyEngine (resourceParams [7])
    .Program (by decide) (by decide)

/-- The byte pair that lets a `Return` (12) execute right after a
boolean-producing instruction: first byte a logic opcode 6..11, second
byte 12. -/
def badPair (a b : Nat) : Bool :=
  decide (6 ≤ a) && decide (a ≤ 11) && decide (b = 12)

/-- No adjacent `badPair` anywhere in a byte list. -/
def pairFree : List Nat → Bool
  | a :: b :: t => !badPair a b && pairFree (b :: t)
  | _ => true

theorem pairFree_tail {a : Nat} {t : List Nat} (h : pairFree (a :: t) = true) :
    pairFree t = true := by
  cases t with
  | nil => rfl
  | cons b t' =>
    simp only [pairFree, Bool.and_eq_true] at h
    exact h.2

theorem pairFree_drop (n : Nat) :
    ∀ l : List Nat, pairFree l = true → pairFree (l.drop n) = true := by
  induction n with
  | zero => intro l h; simpa
  | succ n ih =>
    intro l h
    cases l with
    | nil => rfl
    | cons a t => exact ih t (pairFree_tail h)

theorem pairFree_head_ne_twelve {c : Nat} {t : List Nat}
    (h : pairFree (c :: t) = true) (h6 : 6 ≤ c) (h11 : c ≤ 11) :
    t.head? ≠ some 12 := by
  cases t with
  | nil => simp
  | cons y t' =>
    intro hy
    simp only [List.head?_cons, Option.some.injEq] at hy
    subst hy
    simp [pairFree, badPair, h6, h11] at h

theorem pairFree_cons {x : Nat} {l : List Nat} (hl : pairFree l = true)
    (hx : ∀ y, l.head? = some y → badPair x y = false) :
    pairFree (x :: l) = true := by
  cases l with
  | nil => rfl
  | cons y t => simp [pairFree, hx y rfl, hl]

theorem badPair_left_low {x y : Nat} (h : x < 6) : badPair x y = false := by
  simp [badPair]; omega

theorem badPair_left_high {x y : Nat} (h : 11 < x) : badPair x y = false := by
  simp [badPair]; omega

theorem badPair_right {x y : Nat} (h : y ≠ 12) : badPair x y = false := by
  simp [badPair]; omega

theorem pairFree_append :
    ∀ xs ys : List Nat, pairFree xs = true → pairFree ys = true →
      (∀ x y, xs.getLast? = some x → ys.head? = some y → badPair x y = false) →
      pairFree (xs ++ ys) = true := by
  intro xs
  induction xs with
  | nil => intro ys _ hys _; simpa
  | cons a t ih =>
    intro ys hxs hys hb
    cases t with
    | nil =>
      cases ys with
      | nil => rfl
      | cons y ys' =>
        have hby : badPair a y = false := hb a y (by simp) rfl
        simpa [pairFree, hby] using hys
    | cons b t' =>
      have h1 : badPair a b = false := by
        simp only [pairFree, Bool.and_eq_true, Bool.not_eq_true'] at hxs
        exact hxs.1
      have h2 : pairFree (b :: t') = true := pairFree_tail hxs
      have hrec := ih ys h2 hys
        (fun x y hx hy => hb x y (by rw [List.getLast?_cons_cons]; exact hx) hy)
      simpa [pairFree, h1] using hrec

theorem varintGo_cons (fuel v : Nat) : ∃ w t, varintGo fuel v = w :: t := by
  cases fuel with
  | zero => exact ⟨v, [], rfl⟩
  | succ fuel =>
    by_cases h : v < 128
    · exact ⟨v, [], by simp [varintGo, h]⟩
    · exact ⟨v % 128 + 128, varintGo fuel (v / 128), by simp [varintGo, h]⟩

theorem varintGo_pairFree (fuel : Nat) :
    ∀ v, pairFree (varintGo fuel v) = true := by
  induction fuel with
  | zero => intro v; rfl
  | succ fuel ih =>
    intro v
    by_cases h : v < 128
    · simp [varintGo, h, pairFree]
    · obtain ⟨w, t, hw⟩ := varintGo_cons fuel (v / 128)
      simp only [varintGo, h, if_false]
      exact pairFree_cons (ih (v / 128))
        (fun y _ => badPair_left_high (by omega))

theorem opBytes_pairFree (op : OpCode) : pairFree (opBytes op) = true := by
  cases op with
  | LoadSubjectId p =>
    exact pairFree_cons (varintGo_pairFree p p) (fun y _ => badPair_left_low (by omega))
  | LoadResourceId p =>
    exact pairFree_cons (varintGo_pairFree p p) (fun y _ => badPair_left_low (by omega))
  | LoadConstAttrId a =>
    exact pairFree_cons (varintGo_pairFree a a) (fun y _ => badPair_left_low (by omega))
  | LoadConstEntityId eid =>
    have hk : pairFree (eid.kind.kindByte :: varint eid.id) = true :=
      pairFree_cons (varintGo_pairFree eid.id eid.id)
        (fun y _ => badPair_left_low (by cases eid.kind <;> simp [EntityKind.kindByte]))
    exact pairFree_cons hk (fun y _ => badPair_left_low (by omega))
  | _ => rfl

theorem toBytecode_head_ne_twelve :
    ∀ ops : List OpCode, OpCode.Return ∉ ops →
      ∀ y, (toBytecode ops).head? = some y → y ≠ 12 := by
  intro ops hret y hy
  cases ops with
  | nil => cases hy
  | cons op rest =>
    have hop : op ≠ .Return := fun h => hret (h ▸ List.mem_cons_self op rest)
    obtain ⟨c, cs, hc⟩ := opBytes_cons op
    simp only [toBytecode, hc, List.cons_append, List.head?_cons,
      Option.some.injEq] at hy
    subst hy
    cases op <;> simp [opBytes] at hc <;> first
      | omega
      | exact absurd rfl hop

theorem toBytecode_pairFree :
    ∀ ops : List OpCode, OpCode.Return ∉ ops →
      pairFree (toBytecode ops) = true := by
  intro ops
  induction ops with
  | nil => intro _; rfl
  | cons op rest ih =>
    intro hret
    have hrest : OpCode.Return ∉ rest := fun h => hret (List.mem_cons_of_mem op h)
    refine pairFree_append (opBytes op) (toBytecode rest)
      (opBytes_pairFree op) (ih hrest) ?_
    intro x y _ hy
    exact badPair_right (toBytecode_head_ne_twelve rest hrest y hy)

/-- Whether the top of the evaluation stack is a `Uint` — the only item
`Return` accepts, pushed only by the logic opcodes 6..11. -/
def topUint (stack : List StackItem) : Bool :=
  match stack with
  | .Uint _ :: _ => true
  | _ => false

set_option maxHeartbeats 1000000 in
theorem tryFrom_code {c : Nat} {bc : Bytecode} (h : Bytecode.tryFrom c = some bc) :
    c = bc.code := by
  by_cases hle : c ≤ 12
  · interval_cases c <;> simp_all [Bytecode.tryFrom, Bytecode.code] <;>
      exact h ▸ rfl
  · exfalso
    have hnone : Bytecode.tryFrom c = none := by
      unfold Bytecode.tryFrom
      repeat rw [if_neg (by omega)]
    rw [hnone] at h
    cases h

theorem readU128_rest {l : List Nat} {v : Nat} {rest : List Nat}
    (h : readU128 l = some (v, rest)) : rest = List.drop 16 l := by
  unfold readU128 at h
  split at h
  · simp only [Option.some.injEq, Prod.mk.injEq] at h
    exact h.2.symm
  · cases h

theorem evalGo_not_returned (params : AccessControlParams) :
    ∀ fuel pc stack, pairFree pc = true →
      (topUint stack = true → pc.head? ≠ some 12) →
      ∀ b, evalGo params fuel pc stack ≠ .returned b := by
  intro fuel
  induction fuel with
  | zero => intro pc stack _ _ b h; cases h
  | succ fuel ih =>
    intro pc stack hpf htop b
    cases pc with
    | nil => intro h; cases h
    | cons c pc' =>
      have hpf' : pairFree pc' = true := pairFree_tail hpf
      cases htf : Bytecode.tryFrom c with
      | none => simp [evalGo, htf]
      | some bc =>
        have hcode : c = bc.code := tryFrom_code htf
        cases bc with
        | LoadSubjectId =>
          cases hr : readU128 pc' with
          | none => simp [evalGo, htf, hr]
          | some p =>
            obtain ⟨v, rest⟩ := p
            cases hm : mlookup params.subjectEids v with
            | none => simp [evalGo, htf, hr, hm]
            | some eid =>
              simp only [evalGo, htf, hr, hm]
              exact ih rest (.EntityId eid :: stack)
                (readU128_rest hr ▸ pairFree_drop 16 pc' hpf')
                (fun ht => Bool.noConfusion ht) b
        | LoadSubjectAttrs =>
          simp only [evalGo, htf]
          exact ih pc' (.AttrIdSet params.subjectAttrs :: stack) hpf'
            (fun ht => Bool.noConfusion ht) b
        | LoadResourceId =>
          cases hr : readU128 pc' with
          | none => simp [evalGo, htf, hr]
          | some p =>
            obtain ⟨v, rest⟩ := p
            cases hm : mlookup params.resourceEids v with
            | none => simp [evalGo, htf, hr, hm]
            | some eid =>
              simp only [evalGo, htf, hr, hm]
              exact ih rest (.EntityId eid :: stack)
                (readU128_rest hr ▸ pairFree_drop 16 pc' hpf')
                (fun ht => Bool.noConfusion ht) b
        | LoadResourceAttrs =>
          simp only [evalGo, htf]
          exact ih pc' (.AttrIdSet params.resourceAttrs :: stack) hpf'
            (fun ht => Bool.noConfusion ht) b
        | LoadConstAttrId =>
          cases hr : readU128 pc' with
          | none => simp [evalGo, htf, hr]
          | some p =>
            obtain ⟨v, rest⟩ := p
            simp only [evalGo, htf, hr]
            exact ih rest (.AttrId v :: stack)
              (readU128_rest hr ▸ pairFree_drop 16 pc' hpf')
              (fun ht => Bool.noConfusion ht) b
        | LoadConstEntityId =>
          cases pc' with
          | nil => simp [evalGo, htf]
          | cons kb pc2 =>
            cases hk : Kind.tryFrom kb with
            | none => simp [evalGo, htf, hk]
            | some kind =>
              cases hr : readU128 pc2 with
              | none => simp [evalGo, htf, hk, hr]
              | some p =>
                obtain ⟨v, rest⟩ := p
                cases hek : kind.toEntityKind with
                | none => simp [evalGo, htf, hk, hr, hek]
                | some ek =>
                  simp only [evalGo, htf, hk, hr, hek]
                  exact ih rest (.EntityId ⟨ek, v⟩ :: stack)
                    (readU128_rest hr ▸
                      pairFree_drop 16 pc2 (pairFree_tail hpf'))
                    (fun ht => Bool.noConfusion ht) b
        | IsEq =>
          have hc : c = 6 := hcode.trans rfl
          subst hc
          cases stack with
          | nil => simp [evalGo, htf]
          | cons a tail =>
            cases tail with
            | nil => simp [evalGo, htf]
            | cons bb rest =>
              simp only [evalGo, htf]
              exact ih pc' (.Uint (if isEqTest a bb then 1 else 0) :: rest) hpf'
                (fun _ => pairFree_head_ne_twelve hpf (by omega) (by omega)) b
        | SupersetOf =>
          have hc : c = 7 := hcode.trans rfl
          subst hc
          cases stack with
          | nil => simp [evalGo, htf]
          | cons a tail =>
            cases a with
            | AttrIdSet sa =>
              cases tail with
              | nil => simp [evalGo, htf]
              | cons bb rest =>
                cases bb with
                | AttrIdSet sb =>
                  simp only [evalGo, htf]
                  exact ih pc'
                    (.Uint (if sb.all (fun x => decide (x ∈ sa)) then 1 else 0)
                      :: rest) hpf'
                    (fun _ => pairFree_head_ne_twelve hpf (by omega) (by omega)) b
                | Uint v => simp [evalGo, htf]
                | EntityId e => simp [evalGo, htf]
                | AttrId a2 => simp [evalGo, htf]
            | Uint v => simp [evalGo, htf]
            | EntityId e => simp [evalGo, htf]
            | AttrId a2 => simp [evalGo, htf]
        | IdSetContains =>
          have hc : c = 8 := hcode.trans rfl
          subst hc
          cases stack with
          | nil => simp [evalGo, htf]
          | cons a tail =>
            cases tail with
            | nil => simp [evalGo, htf]
            | cons bb rest =>
              cases a with
              | AttrIdSet s =>
                cases bb with
                | AttrId i =>
                  simp only [evalGo, htf]
                  exact ih pc' (.Uint (if i ∈ s then 1 else 0) :: rest) hpf'
                    (fun _ => pairFree_head_ne_twelve hpf (by omega) (by omega)) b
                | Uint v => simp [evalGo, htf]
                | AttrIdSet s2 => simp [evalGo, htf]
                | EntityId e => simp [evalGo, htf]
              | Uint v => simp [evalGo, htf]
              | EntityId e => simp [evalGo, htf]
              | AttrId a2 => simp [evalGo, htf]
        | And =>
          have hc : c = 9 := hcode.trans rfl
          subst hc
          cases stack with
          | nil => simp [evalGo, htf]
          | cons a tail =>
            cases a with
            | Uint rhs =>
              cases tail with
              | nil => simp [evalGo, htf]
              | cons bb rest =>
                cases bb with
                | Uint lhs =>
                  simp only [evalGo, htf]
                  exact ih pc'
                    (.Uint (if 0 < rhs ∧ 0 < lhs then 1 else 0) :: rest) hpf'
                    (fun _ => pairFree_head_ne_twelve hpf (by omega) (by omega)) b
                | AttrIdSet s => simp [evalGo, htf]
                | EntityId e => simp [evalGo, htf]
                | AttrId a2 => simp [evalGo, htf]
            | AttrIdSet s => simp [evalGo, htf]
            | EntityId e => simp [evalGo, htf]
            | AttrId a2 => simp [evalGo, htf]
        | Or =>
          have hc : c = 10 := hcode.trans rfl
          subst hc
          cases stack with
          | nil => simp [evalGo, htf]
          | cons a tail =>
            cases a with
            | Uint rhs =>
              cases tail with
              | nil => simp [evalGo, htf]
              | cons bb rest =>
                cases bb with
                | Uint lhs =>
                  simp only [evalGo, htf]
                  exact ih pc'
                    (.Uint (if 0 < rhs ∨ 0 < lhs then 1 else 0) :: rest) hpf'
                    (fun _ => pairFree_head_ne_twelve hpf (by omega) (by omega)) b
                | AttrIdSet s => simp [evalGo, htf]
                | EntityId e => simp [evalGo, htf]
                | AttrId a2 => simp [evalGo, htf]
            | AttrIdSet s => simp [evalGo, htf]
            | EntityId e => simp [evalGo, htf]
            | AttrId a2 => simp [evalGo, htf]
        | Not =>
          have hc : c = 11 := hcode.trans rfl
          subst hc
          cases stack with
          | nil => simp [evalGo, htf]
          | cons a rest =>
            cases a with
            | Uint v =>
              simp only [evalGo, htf]
              exact ih pc' (.Uint (if 0 < v then 0 else 1) :: rest) hpf'
                (fun _ => pairFree_head_ne_twelve hpf (by omega) (by omega)) b
            | AttrIdSet s => simp [evalGo, htf]
            | EntityId e => simp [evalGo, htf]
            | AttrId a2 => simp [evalGo, htf]
        | Return =>
          have hc : c = 12 := hcode.trans rfl
          subst hc
          cases stack with
          | nil => simp [evalGo, htf]
          | cons a rest =>
            cases a with
            | Uint u => exact absurd (by simp) (htop rfl)
            | AttrIdSet s => simp [evalGo, htf]
            | EntityId e => simp [evalGo, htf]
            | AttrId a2 => simp [evalGo, htf]

/-- Claim C8 (amended): for every opcode sequence containing no `Return`
instruction (so evaluation cannot halt by executing a genuine `Return`),
evaluating `to_bytecode(ops)` never yields a boolean result — it fails
with a `Program` error, a `Type` error, or the `LoadConstEntityId`
panic, rather than always with the `Program` error the claim states.
The key invariant: `to_bytecode` output never places a 12 byte directly
after a logic opcode 6..11 unless the 12 is a genuine `Return`, and only
a logic opcode leaves the `Uint` operand `Return` needs on top of the
stack. -/
theorem c8_no_return_never_boolean (ops : List OpCode)
    (params : AccessControlParams) (h : OpCode.Return ∉ ops) (b : Bool) :
    evalPolicy (toBytecode ops) params ≠ .returned b :=
  evalGo_not_returned params (toBytecode ops).length (toBytecode ops) []
    (toBytecode_pairFree ops h) (fun ht => Bool.noConfusion ht) b

theorem c8_no_return_never_boolean_witness :
    OpCode.Return ∉ ([OpCode.IsEq] : List OpCode)
    ∧ evalPolicy (toBytecode [OpCode.IsEq]) emptyParams ≠ .returned true
    ∧ evalPolicy (toBytecode [OpCode.IsEq]) emptyParams ≠ .returned false :=
  ⟨by decide,
   c8_no_return_never_boolean [OpCode.IsEq] emptyParams (by decide) true,
   c8_no_return_never_boolean [OpCode.IsEq] emptyParams (by decide) false⟩

/-- Claim C8, counterexample: the single-instruction sequence `[IsEq]`
contains no `Return` and cannot halt by executing one, yet evaluating
its bytecode yields the `Type` error (stack underflow), not the
`Program` error the claim says every such sequence must produce. -/
theorem c8_counterexample :
    OpCode.Return ∉ ([OpCode.IsEq] : List OpCode)
    ∧ evalPolicy (toBytecode [OpCode.IsEq]) emptyParams = .errored .TypeError
    ∧ evalPolicy (toBytecode [OpCode.IsEq]) emptyParams ≠ .errored .Program := by
  decide

/-- First-some choice on options, used to state bucket-lookup
characterizations. -/
def optOr {α : Type} (x y : Option α) : Option α :=
  match x with
  | some a => some a
  | none => y

/-- The policy an id contributes to the allow bucket: the engine's
policy under that id, if it exists and has class Allow. -/
def allowLookup (e : PolicyEngine) (pid : Nat) : Option Policy :=
  match mlookup e.policies pid with
  | some pol => match pol.pclass with | .Allow => some pol | .Deny => none
  | none => none

/-- The policy an id contributes to the deny bucket. -/
def denyLookup (e : PolicyEngine) (pid : Nat) : Option Policy :=
  match mlookup e.policies pid with
  | some pol => match pol.pclass with | .Deny => some pol | .Allow => none
  | none => none

theorem mlookup_mapInsert_self {β : Type} (L : List (Nat × β)) (k : Nat) (v : β) :
    mlookup (mapInsert L k v) k = some v := by
  induction L with
  | nil => simp [mapInsert, mlookup]
  | cons p t ih =>
    obtain ⟨k0, v0⟩ := p
    by_cases h : k0 = k <;> simp [mapInsert, mlookup, h, ih]

theorem mlookup_mapInsert_ne {β : Type} (L : List (Nat × β)) {k k' : Nat} (v : β)
    (h : k' ≠ k) : mlookup (mapInsert L k v) k' = mlookup L k' := by
  have hkk : ¬(k = k') := fun hh => h hh.symm
  induction L with
  | nil => simp [mapInsert, mlookup, hkk]
  | cons p t ih =>
    obtain ⟨k0, v0⟩ := p
    by_cases h0 : k0 = k
    · subst h0
      simp [mapInsert, mlookup, hkk]
    · simp [mapInsert, mlookup, h0, ih]

theorem mlookup_mem {β : Type} {L : List (Nat × β)} {k : Nat} {v : β}
    (h : mlookup L k = some v) : (k, v) ∈ L := by
  induction L with
  | nil => cases h
  | cons p t ih =>
    obtain ⟨k0, v0⟩ := p
    by_cases h0 : k0 = k
    · subst h0
      simp [mlookup] at h
      simp [h]
    · simp [mlookup, h0] at h
      exact List.mem_cons_of_mem _ (ih h)

theorem optOr_if_or {α : Type} (v b : Option α) (p1 p2 : Prop)
    [Decidable p1] [Decidable p2] :
    optOr (if p1 then v else none) (optOr (if p2 then v else none) b) =
      optOr (if p1 ∨ p2 then v else none) b := by
  by_cases h1 : p1 <;> by_cases h2 : p2 <;> cases v <;> simp [h1, h2, optOr]

theorem regStep_allow (e : PolicyEngine) (ctx : EvalCtx) (pid q : Nat) :
    mlookup ((regStep e ctx q).applicableAllow) pid =
      optOr (if pid = q then allowLookup e pid else none)
        (mlookup ctx.applicableAllow pid) := by
  by_cases hpq : pid = q
  · subst hpq
    unfold regStep allowLookup
    cases hm : mlookup e.policies pid with
    | none => simp [optOr]
    | some pol =>
      cases hc : pol.pclass <;>
        simp [optOr, hc, mlookup_mapInsert_self]
  · unfold regStep
    cases hm : mlookup e.policies q with
    | none => simp [optOr, hpq]
    | some pol =>
      cases hc : pol.pclass <;>
        simp [optOr, hpq, hc, mlookup_mapInsert_ne _ _ hpq]

theorem regStep_deny (e : PolicyEngine) (ctx : EvalCtx) (pid q : Nat) :
    mlookup ((regStep e ctx q).applicableDeny) pid =
      optOr (if pid = q then denyLookup e pid else none)
        (mlookup ctx.applicableDeny pid) := by
  by_cases hpq : pid = q
  · subst hpq
    unfold regStep denyLookup
    cases hm : mlookup e.policies pid with
    | none => simp [optOr]
    | some pol =>
      cases hc : pol.pclass <;>
        simp [optOr, hc, mlookup_mapInsert_self]
  · unfold regStep
    cases hm : mlookup e.policies q with
    | none => simp [optOr, hpq]
    | some pol =>
      cases hc : pol.pclass <;>
        simp [optOr, hpq, hc, mlookup_mapInsert_ne _ _ hpq]

theorem regFold_allow (e : PolicyEngine) (pid : Nat) :
    ∀ (ids : List Nat) (ctx : EvalCtx),
      mlookup ((ids.foldl (regStep e) ctx).applicableAllow) pid =
        optOr (if pid ∈ ids then allowLookup e pid else none)
          (mlookup ctx.applicableAllow pid) := by
  intro ids
  induction ids with
  | nil => intro ctx; simp [optOr]
  | cons q rest ih =>
    intro ctx
    rw [List.foldl_cons, ih, regStep_allow, optOr_if_or]
    congr 1
    simp [List.mem_cons, or_comm]

theorem regFold_deny (e : PolicyEngine) (pid : Nat) :
    ∀ (ids : List Nat) (ctx : EvalCtx),
      mlookup ((ids.foldl (regStep e) ctx).applicableDeny) pid =
        optOr (if pid ∈ ids then denyLookup e pid else none)
          (mlookup ctx.applicableDeny pid) := by
  intro ids
  induction ids with
  | nil => intro ctx; simp [optOr]
  | cons q rest ih =>
    intro ctx
    rw [List.foldl_cons, ih, regStep_deny, optOr_if_or]
    congr 1
    simp [List.mem_cons, or_comm]

/-- Whether the trigger group keyed on `a` contains an applying trigger
that targets `pid`. -/
def contribTo (e : PolicyEngine) (params : AccessControlParams) (a pid : Nat) :
    Bool :=
  match mlookup e.triggerGroups a with
  | none => false
  | some ts => ts.any (fun t => triggerApplies t params && decide (pid ∈ t.policyIds))

theorem triggerFold_allow (e : PolicyEngine) (params : AccessControlParams)
    (pid : Nat) :
    ∀ (ts : List PolicyTrigger) (ctx : EvalCtx),
      mlookup ((ts.foldl
          (fun ctx t =>
            if triggerApplies t params then registerPolicies e t ctx else ctx)
          ctx).applicableAllow) pid =
        optOr
          (if ts.any
              (fun t => triggerApplies t params && decide (pid ∈ t.policyIds))
            then allowLookup e pid else none)
          (mlookup ctx.applicableAllow pid) := by
  intro ts
  induction ts with
  | nil => intro ctx; simp [optOr]
  | cons t rest ih =>
    intro ctx
    rw [List.foldl_cons, ih]
    by_cases ha : triggerApplies t params
    · simp only [ha, if_true]
      unfold registerPolicies
      rw [regFold_allow, optOr_if_or]
      congr 1
      simp [List.any_cons, ha, or_comm]
    · simp only [ha, if_false]
      congr 1
      simp [List.any_cons, ha]

theorem triggerFold_deny (e : PolicyEngine) (params : AccessControlParams)
    (pid : Nat) :
    ∀ (ts : List PolicyTrigger) (ctx : EvalCtx),
      mlookup ((ts.foldl
          (fun ctx t =>
            if triggerApplies t params then registerPolicies e t ctx else ctx)
          ctx).applicableDeny) pid =
        optOr
          (if ts.any
              (fun t => triggerApplies t params && decide (pid ∈ t.policyIds))
            then denyLookup e pid else none)
          (mlookup ctx.applicableDeny pid) := by
  intro ts
  induction ts with
  | nil => intro ctx; simp [optOr]
  | cons t rest ih =>
    intro ctx
    rw [List.foldl_cons, ih]
    by_cases ha : triggerApplies t params
    · simp only [ha, if_true]
      unfold registerPolicies
      rw [regFold_deny, optOr_if_or]
      congr 1
      simp [List.any_cons, ha, or_comm]
    · simp only [ha, if_false]
      congr 1
      simp [List.any_cons, ha]

theorem collectApplicable_allow (e : PolicyEngine) (params : AccessControlParams)
    (pid a : Nat) (ctx : EvalCtx) :
    mlookup ((collectApplicable e a params ctx).applicableAllow) pid =
      optOr (if contribTo e params a pid then allowLookup e pid else none)
        (mlookup ctx.applicableAllow pid) := by
  cases hg : mlookup e.triggerGroups a with
  | none => simp [collectApplicable, contribTo, hg, optOr]
  | some ts =>
    simp only [collectApplicable, contribTo, hg]
    exact triggerFold_allow e params pid ts ctx

theorem collectApplicable_deny (e : PolicyEngine) (params : AccessControlParams)
    (pid a : Nat) (ctx : EvalCtx) :
    mlookup ((collectApplicable e a params ctx).applicableDeny) pid =
      optOr (if contribTo e params a pid then denyLookup e pid else none)
        (mlookup ctx.applicableDeny pid) := by
  cases hg : mlookup e.triggerGroups a with
  | none => simp [collectApplicable, contribTo, hg, optOr]
  | some ts =>
    simp only [collectApplicable, contribTo, hg]
    exact triggerFold_deny e params pid ts ctx

theorem applicableCtx_allow (e : PolicyEngine) (params : AccessControlParams)
    (pid : Nat) :
    mlookup ((applicableCtx e params).applicableAllow) pid =
      (if (params.subjectAttrs ++ params.resourceAttrs).any
          (fun a => contribTo e params a pid)
        then allowLookup e pid else none) := by
  have hgen : ∀ (attrs : List Nat) (ctx : EvalCtx),
      mlookup ((attrs.foldl
          (fun ctx a => collectApplicable e a params ctx) ctx).applicableAllow) pid =
        optOr (if attrs.any (fun a => contribTo e params a pid)
            then allowLookup e pid else none)
          (mlookup ctx.applicableAllow pid) := by
    intro attrs
    induction attrs with
    | nil => intro ctx; simp [optOr]
    | cons a rest ih =>
      intro ctx
      rw [List.foldl_cons, ih, collectApplicable_allow, optOr_if_or]
      congr 1
      simp [List.any_cons, or_comm]
  rw [applicableCtx, hgen]
  cases h : (if (params.subjectAttrs ++ params.resourceAttrs).any
      (fun a => contribTo e params a pid)
    then allowLookup e pid else none) <;> simp [h, optOr, mlookup]

theorem applicableCtx_deny (e : PolicyEngine) (params : AccessControlParams)
    (pid : Nat) :
    mlookup ((applicableCtx e params).applicableDeny) pid =
      (if (params.subjectAttrs ++ params.resourceAttrs).any
          (fun a => contribTo e params a pid)
        then denyLookup e pid else none) := by
  have hgen : ∀ (attrs : List Nat) (ctx : EvalCtx),
      mlookup ((attrs.foldl
          (fun ctx a => collectApplicable e a params ctx) ctx).applicableDeny) pid =
        optOr (if attrs.any (fun a => contribTo e params a pid)
            then denyLookup e pid else none)
          (mlookup ctx.applicableDeny pid) := by
    intro attrs
    induction attrs with
    | nil => intro ctx; simp [optOr]
    | cons a rest ih =>
      intro ctx
      rw [List.foldl_cons, ih, collectApplicable_deny, optOr_if_or]
      congr 1
      simp [List.any_cons, or_comm]
  rw [applicableCtx, hgen]
  cases h : (if (params.subjectAttrs ++ params.resourceAttrs).any
      (fun a => contribTo e params a pid)
    then denyLookup e pid else none) <;> simp [h, optOr, mlookup]

theorem binsert_mem (x a : Nat) : ∀ l : List Nat, x ∈ binsert a l ↔ x = a ∨ x ∈ l := by
  intro l
  induction l with
  | nil => simp [binsert]
  | cons b t ih =>
    by_cases h1 : a < b
    · simp [binsert, h1]
    · by_cases h2 : a = b
      · subst h2
        simp [binsert, h1, List.mem_cons]
        try tauto
      · simp [binsert, h1, h2, List.mem_cons, ih]
        try tauto

theorem binsert_headq (a : Nat) :
    ∀ l : List Nat, (binsert a l).head? = some a ∨ (binsert a l).head? = l.head? := by
  intro l
  cases l with
  | nil => left; rfl
  | cons b t =>
    by_cases h1 : a < b
    · left; simp [binsert, h1]
    · by_cases h2 : a = b <;> right <;> simp [binsert, h1, h2]

theorem binsert_chain {a : Nat} :
    ∀ {l : List Nat}, List.Chain' (· < ·) l → List.Chain' (· < ·) (binsert a l) := by
  intro l
  induction l with
  | nil => intro _; simp [binsert]
  | cons b t ih =>
    intro h
    have hch := List.chain'_cons'.mp h
    by_cases h1 : a < b
    · simp only [binsert, if_pos h1]
      refine List.chain'_cons'.mpr ⟨?_, h⟩
      intro y hy
      simp at hy
      omega
    · by_cases h2 : a = b
      · simp only [binsert, if_neg h1, if_pos h2]
        exact h
      · have hba : b < a := by omega
        simp only [binsert, if_neg h1, if_neg h2]
        refine List.chain'_cons'.mpr ⟨?_, ih hch.2⟩
        intro y hy
        rcases binsert_headq a t with hh | hh
        · rw [hh] at hy
          simp at hy
          omega
        · rw [hh] at hy
          exact hch.1 y hy

theorem bset_mem_gen (x : Nat) :
    ∀ (l s : List Nat), x ∈ l.foldl (fun s a => binsert a s) s ↔ x ∈ s ∨ x ∈ l := by
  intro l
  induction l with
  | nil => intro s; simp
  | cons a rest ih =>
    intro s
    rw [List.foldl_cons, ih, binsert_mem]
    simp [List.mem_cons]
    tauto

theorem bset_mem (x : Nat) (l : List Nat) : x ∈ bset l ↔ x ∈ l := by
  unfold bset
  rw [bset_mem_gen]
  simp

theorem bset_chain (l : List Nat) : List.Chain' (· < ·) (bset l) := by
  unfold bset
  have hgen : ∀ (l s : List Nat), List.Chain' (· < ·) s →
      List.Chain' (· < ·) (l.foldl (fun s a => binsert a s) s) := by
    intro l
    induction l with
    | nil => intro s hs; simpa
    | cons a rest ih =>
      intro s hs
      rw [List.foldl_cons]
      exact ih _ (binsert_chain hs)
  exact hgen l [] (by simp)

theorem chain_head_le {a : Nat} {t : List Nat}
    (h : List.Chain' (· < ·) (a :: t)) : ∀ x ∈ a :: t, a ≤ x := by
  intro x hx
  have hp := List.chain'_iff_pairwise.mp h
  rcases List.mem_cons.mp hx with rfl | hx'
  · exact le_refl x
  · exact le_of_lt ((List.pairwise_cons.mp hp).1 x hx')

theorem sorted_eq_of_mem {s t : List Nat} (hs : List.Chain' (· < ·) s)
    (ht : List.Chain' (· < ·) t) (hmem : ∀ x, x ∈ s ↔ x ∈ t) : s = t := by
  have hs' := List.chain'_iff_pairwise.mp hs
  have ht' := List.chain'_iff_pairwise.mp ht
  have hns : s.Nodup := hs'.imp ne_of_lt
  have hnt : t.Nodup := ht'.imp ne_of_lt
  haveI : IsAntisymm Nat (· < ·) :=
    ⟨fun a b h1 h2 => absurd h2 (lt_asymm h1)⟩
  exact List.eq_of_perm_of_sorted
    ((List.perm_ext_iff_of_nodup hns hnt).mpr hmem) hs' ht'

theorem buildMatches_gen_mem (matcher : List Nat) (x : Nat) :
    ∀ (l s : List Nat),
      (x ∈ l.foldl (fun s a => if a ∈ matcher then binsert a s else s) s) ↔
        x ∈ s ∨ (x ∈ l ∧ x ∈ matcher) := by
  intro l
  induction l with
  | nil => intro s; simp
  | cons a rest ih =>
    intro s
    rw [List.foldl_cons, ih]
    by_cases ham : a ∈ matcher
    · rw [if_pos ham, binsert_mem]
      simp [List.mem_cons]
      constructor
      · rintro ((rfl | hx) | hx) <;> tauto
      · rintro (hx | ⟨(rfl | hx), hm⟩) <;> tauto
    · rw [if_neg ham]
      simp [List.mem_cons]
      constructor
      · rintro (hx | hx) <;> tauto
      · rintro (hx | ⟨(rfl | hx), hm⟩) <;> tauto

theorem buildMatches_mem (params : AccessControlParams) (matcher : List Nat)
    (x : Nat) :
    x ∈ buildMatches params matcher ↔
      (x ∈ params.subjectAttrs ++ params.resourceAttrs) ∧ x ∈ matcher := by
  unfold buildMatches
  rw [buildMatches_gen_mem]
  simp

theorem buildMatches_chain (params : AccessControlParams) (matcher : List Nat) :
    List.Chain' (· < ·) (buildMatches params matcher) := by
  unfold buildMatches
  have hgen : ∀ (l s : List Nat), List.Chain' (· < ·) s →
      List.Chain' (· < ·)
        (l.foldl (fun s a => if a ∈ matcher then binsert a s else s) s) := by
    intro l
    induction l with
    | nil => intro s hs; simpa
    | cons a rest ih =>
      intro s hs
      rw [List.foldl_cons]
      by_cases ham : a ∈ matcher
      · rw [if_pos ham]; exact ih _ (binsert_chain hs)
      · rw [if_neg ham]; exact ih _ hs
  exact hgen _ [] (by simp)

theorem buildMatches_eq (params : AccessControlParams) {matcher : List Nat}
    (hch : List.Chain' (· < ·) matcher)
    (hsub : ∀ x ∈ matcher, x ∈ params.subjectAttrs ++ params.resourceAttrs) :
    buildMatches params matcher = matcher := by
  refine sorted_eq_of_mem (buildMatches_chain params matcher) hch (fun x => ?_)
  rw [buildMatches_mem]
  exact ⟨fun h => h.2, fun h => ⟨hsub x h, h⟩⟩

theorem subset_of_buildMatches_eq {params : AccessControlParams}
    {matcher : List Nat} (he : buildMatches params matcher = matcher) :
    ∀ x ∈ matcher, x ∈ params.subjectAttrs ++ params.resourceAttrs := by
  intro x hx
  rw [← he] at hx
  exact ((buildMatches_mem params matcher x).mp hx).1

/-- The engine invariant `add_trigger` maintains: every stored trigger's
matcher is a sorted duplicate-free `BTreeSet` and contains the group key
it is stored under (the key is the matcher's first attribute). -/
def EngineWF (e : PolicyEngine) : Prop :=
  ∀ p ∈ e.triggerGroups, ∀ t ∈ p.2,
    List.Chain' (· < ·) t.attrMatcher ∧ p.1 ∈ t.attrMatcher

/-- Executable strict-sortedness check, used to decide `EngineWF`. -/
def chainLT : List Nat → Bool
  | a :: b :: t => decide (a < b) && chainLT (b :: t)
  | _ => true

theorem chainLT_iff : ∀ l : List Nat, chainLT l = true ↔ List.Chain' (· < ·) l := by
  intro l
  induction l with
  | nil => simp [chainLT]
  | cons a t ih =>
    cases t with
    | nil => simp [chainLT]
    | cons b t' =>
      rw [List.chain'_cons, ← ih]
      simp [chainLT, Bool.and_eq_true]

instance (e : PolicyEngine) : Decidable (EngineWF e) :=
  decidable_of_iff
    (∀ p ∈ e.triggerGroups, ∀ t ∈ p.2,
      chainLT t.attrMatcher = true ∧ p.1 ∈ t.attrMatcher)
    (by
      constructor
      · intro h p hp t ht
        obtain ⟨h1, h2⟩ := h p hp t ht
        exact ⟨(chainLT_iff t.attrMatcher).mp h1, h2⟩
      · intro h p hp t ht
        obtain ⟨h1, h2⟩ := h p hp t ht
        exact ⟨(chainLT_iff t.attrMatcher).mpr h1, h2⟩)

theorem allowLookup_some {e : PolicyEngine} {pid : Nat} {pol : Policy}
    (h : allowLookup e pid = some pol) :
    mlookup e.policies pid = some pol ∧ pol.pclass = PolicyValue.Allow := by
  unfold allowLookup at h
  cases hp : mlookup e.policies pid with
  | none =>
    simp only [hp] at h
    exact Option.noConfusion h
  | some pol' =>
    simp only [hp] at h
    cases hc : pol'.pclass with
    | Allow =>
      simp only [hc] at h
      injection h with h'
      subst h'
      exact ⟨rfl, hc⟩
    | Deny =>
      simp only [hc] at h
      exact Option.noConfusion h

theorem denyLookup_some {e : PolicyEngine} {pid : Nat} {pol : Policy}
    (h : denyLookup e pid = some pol) :
    mlookup e.policies pid = some pol ∧ pol.pclass = PolicyValue.Deny := by
  unfold denyLookup at h
  cases hp : mlookup e.policies pid with
  | none =>
    simp only [hp] at h
    exact Option.noConfusion h
  | some pol' =>
    simp only [hp] at h
    cases hc : pol'.pclass with
    | Deny =>
      simp only [hc] at h
      injection h with h'
      subst h'
      exact ⟨rfl, hc⟩
    | Allow =>
      simp only [hc] at h
      exact Option.noConfusion h

theorem groupsPush_lookup (g : List (Nat × List PolicyTrigger)) (k : Nat)
    (t : PolicyTrigger) :
    ∃ ts, mlookup (groupsPush g k t) k = some ts ∧ t ∈ ts := by
  induction g with
  | nil => exact ⟨[t], by simp [groupsPush, mlookup], by simp⟩
  | cons p g' ih =>
    obtain ⟨k0, ts0⟩ := p
    by_cases h : k0 = k
    · subst h
      exact ⟨ts0 ++ [t], by simp [groupsPush, mlookup], by simp⟩
    · obtain ⟨ts, hts, hmem⟩ := ih
      exact ⟨ts, by simp [groupsPush, mlookup, h, hts], hmem⟩

theorem matcher_singleton {t : PolicyTrigger} {k : Nat}
    (hk : k ∈ t.attrMatcher) (hlen : ¬1 < t.attrMatcher.length) :
    t.attrMatcher = [k] := by
  cases hm : t.attrMatcher with
  | nil => rw [hm] at hk; cases hk
  | cons x xs =>
    cases xs with
    | nil =>
      rw [hm] at hk
      simp at hk
      simp [hk]
    | cons y ys =>
      rw [hm] at hlen
      simp at hlen

/-- Claim C5: for every well-formed engine state and parameters, a
trigger's target policies are collected as applicable iff the trigger's
entire required-attribute set is contained in the union of subject and
resource attributes (and the policy id exists); a single-attribute
trigger's subset condition degenerates to membership of that attribute
in the union, and `triggerApplies` performs no subset check for it; and
`add_trigger` stores each trigger under the first (least) attribute of
its matcher. -/
theorem c5_trigger_applicability (e : PolicyEngine) (params : AccessControlParams)
    (hwf : EngineWF e) :
    (∀ pid pol,
      (mlookup ((applicableCtx e params).applicableAllow) pid = some pol
        ∨ mlookup ((applicableCtx e params).applicableDeny) pid = some pol)
      ↔ ∃ k ts t, mlookup e.triggerGroups k = some ts ∧ t ∈ ts
          ∧ (∀ x ∈ t.attrMatcher,
              x ∈ params.subjectAttrs ∨ x ∈ params.resourceAttrs)
          ∧ pid ∈ t.policyIds ∧ mlookup e.policies pid = some pol)
    ∧ (∀ k ts t, mlookup e.triggerGroups k = some ts → t ∈ ts →
        t.attrMatcher.length = 1 →
        (((∀ x ∈ t.attrMatcher,
              x ∈ params.subjectAttrs ∨ x ∈ params.resourceAttrs)
            ↔ (k ∈ params.subjectAttrs ∨ k ∈ params.resourceAttrs))
          ∧ triggerApplies t params = true))
    ∧ (∀ m ps first rest, bset m = first :: rest →
        ∃ ts, mlookup ((e.addTrigger m ps).triggerGroups) first = some ts
          ∧ (⟨first :: rest, bset ps⟩ : PolicyTrigger) ∈ ts
          ∧ ∀ x ∈ bset m, first ≤ x) := by
  refine ⟨?_, ?_, ?_⟩
  · intro pid pol
    rw [applicableCtx_allow, applicableCtx_deny]
    constructor
    · intro h
      cases hany : (params.subjectAttrs ++ params.resourceAttrs).any
          (fun a => contribTo e params a pid) with
      | false => rcases h with h | h <;> simp [hany] at h
      | true =>
        obtain ⟨a, hamem, hca⟩ := List.any_eq_true.mp hany
        have hex : ∃ ts, mlookup e.triggerGroups a = some ts
            ∧ ∃ t ∈ ts, triggerApplies t params = true ∧ pid ∈ t.policyIds := by
          unfold contribTo at hca
          cases hg : mlookup e.triggerGroups a with
          | none => rw [hg] at hca; cases hca
          | some ts =>
            rw [hg] at hca
            obtain ⟨t, htmem, htp⟩ := List.any_eq_true.mp hca
            rw [Bool.and_eq_true, decide_eq_true_eq] at htp
            exact ⟨ts, rfl, t, htmem, htp.1, htp.2⟩
        obtain ⟨ts, hg, t, htmem, happ, hpid⟩ := hex
        have hwft := hwf (a, ts) (mlookup_mem hg) t htmem
        have hsub : ∀ x ∈ t.attrMatcher,
            x ∈ params.subjectAttrs ∨ x ∈ params.resourceAttrs := by
          by_cases hlen : 1 < t.attrMatcher.length
          · unfold triggerApplies at happ
            rw [if_pos hlen] at happ
            intro x hx
            exact List.mem_append.mp
              (subset_of_buildMatches_eq (of_decide_eq_true happ) x hx)
          · have hmk := matcher_singleton hwft.2 hlen
            rw [hmk]
            intro x hx
            simp at hx
            subst hx
            exact List.mem_append.mp hamem
        refine ⟨a, ts, t, hg, htmem, hsub, hpid, ?_⟩
        rcases h with h | h
        · simp only [hany, if_true] at h
          exact (allowLookup_some h).1
        · simp only [hany, if_true] at h
          exact (denyLookup_some h).1
    · rintro ⟨k, ts, t, hg, htmem, hsub, hpid, hpol⟩
      have hwft := hwf (k, ts) (mlookup_mem hg) t htmem
      have hkin : k ∈ params.subjectAttrs ++ params.resourceAttrs :=
        List.mem_append.mpr (hsub k hwft.2)
      have happ : triggerApplies t params = true := by
        unfold triggerApplies
        by_cases hlen : 1 < t.attrMatcher.length
        · rw [if_pos hlen]
          exact decide_eq_true
            (buildMatches_eq params hwft.1
              (fun x hx => List.mem_append.mpr (hsub x hx)))
        · rw [if_neg hlen]
      have hca : contribTo e params k pid = true := by
        unfold contribTo
        rw [hg]
        exact List.any_eq_true.mpr
          ⟨t, htmem, by rw [Bool.and_eq_true, decide_eq_true_eq]; exact ⟨happ, hpid⟩⟩
      have hany : (params.subjectAttrs ++ params.resourceAttrs).any
          (fun a => contribTo e params a pid) = true :=
        List.any_eq_true.mpr ⟨k, hkin, hca⟩
      cases hc : pol.pclass with
      | Allow => left; simp [hany, allowLookup, hpol, hc]
      | Deny => right; simp [hany, denyLookup, hpol, hc]
  · intro k ts t hg htmem hlen
    have hwft := hwf (k, ts) (mlookup_mem hg) t htmem
    have hmk : t.attrMatcher = [k] :=
      matcher_singleton hwft.2 (by omega)
    refine ⟨?_, ?_⟩
    · rw [hmk]
      constructor
      · intro hs
        exact hs k (by simp)
      · intro hk x hx
        simp at hx
        subst hx
        exact hk
    · unfold triggerApplies
      rw [hmk]
      simp
  · intro m ps first rest hb
    obtain ⟨ts, hts, hmem⟩ :=
      groupsPush_lookup e.triggerGroups first ⟨first :: rest, bset ps⟩
    refine ⟨ts, ?_, hmem, ?_⟩
    · simp only [PolicyEngine.addTrigger, hb]
      exact hts
    · intro x hx
      have hch := bset_chain m
      rw [hb] at hch hx
      exact chain_head_le hch x hx

/-- A concrete well-formed engine for exercising
`c5_trigger_applicability`: one Allow policy behind a single-attribute
trigger. -/
def c5WitnessEngine : PolicyEngine :=
  (PolicyEngine.empty.addPolicy 100 .Allow [1, 1, 6, 12]).addTrigger [7] [100]

theorem c5_trigger_applicability_witness :
    EngineWF c5WitnessEngine
    ∧ ((mlookup ((applicableCtx c5WitnessEngine (resourceParams [7])).applicableAllow) 100
          = some ⟨.Allow, [1, 1, 6, 12]⟩
        ∨ mlookup ((applicableCtx c5WitnessEngine (resourceParams [7])).applicableDeny) 100
          = some ⟨.Allow, [1, 1, 6, 12]⟩)
      ↔ ∃ k ts t, mlookup c5WitnessEngine.triggerGroups k = some ts ∧ t ∈ ts
          ∧ (∀ x ∈ t.attrMatcher,
              x ∈ (resourceParams [7]).subjectAttrs
                ∨ x ∈ (resourceParams [7]).resourceAttrs)
          ∧ 100 ∈ t.policyIds
          ∧ mlookup c5WitnessEngine.policies 100 = some ⟨.Allow, [1, 1, 6, 12]⟩) :=
  ⟨by decide,
   (c5_trigger_applicability c5WitnessEngine (resourceParams [7]) (by decide)).1
     100 ⟨.Allow, [1, 1, 6, 12]⟩⟩

/-- `Kind::str_prefix` from `id.rs`, as a character list. -/
def kindPfx : Kind → List Char
  | .Persona => ['p']
  | .Group => ['g']
  | .Service => ['s']
  | .Domain => ['d']
  | .Policy => ['p', 'o', 'l']
  | .Property => ['p', 'r', 'p']
  | .Attribute => ['a', 't', 'r']
  | .Directory => ['d', 'i', 'r']

/-- Value of a hex digit as decoded by the `hexhex` dependency, which
accepts both lowercase and uppercase digits. -/
def hexDigitVal (c : Char) : Option Nat :=
  if 48 ≤ c.toNat ∧ c.toNat ≤ 57 then some (c.toNat - 48)
  else if 97 ≤ c.toNat ∧ c.toNat ≤ 102 then some (c.toNat - 87)
  else if 65 ≤ c.toNat ∧ c.toNat ≤ 70 then some (c.toNat - 55)
  else none

/-- The hex digit characters `hexhex::hex` emits (lowercase). -/
def digitChar (n : Nat) : Char :=
  if n < 10 then Char.ofNat (48 + n) else Char.ofNat (87 + n)

/-- Whether a character is a lowercase hex digit. -/
def lowerHexChar (c : Char) : Bool :=
  decide (48 ≤ c.toNat ∧ c.toNat ≤ 57) || decide (97 ≤ c.toNat ∧ c.toNat ≤ 102)

/-- `hexhex::decode`: two case-insensitive hex digits per byte; odd
lengths and non-digits fail. -/
def hexDecode : List Char → Option (List Nat)
  | [] => some []
  | [_] => none
  | a :: b :: t =>
    match hexDigitVal a, hexDigitVal b, hexDecode t with
    | some da, some db, some r => some ((16 * da + db) :: r)
    | _, _, _ => none

/-- `hexhex::hex`: lowercase hex encoding, two digits per byte. -/
def hexEncode : List Nat → List Char
  | [] => []
  | b :: t => digitChar (b / 16) :: digitChar (b % 16) :: hexEncode t

/-- `str::strip_prefix` on character lists. -/
def stripPfx : List Char → List Char → Option (List Char)
  | [], s => some s
  | _ :: _, [] => none
  | p :: ps, c :: cs => if c = p then stripPfx ps cs else none

/-- `Id128::<K>::from_str` from `id.rs`: strip the kind prefix and the
dot, hex-decode, require exactly 16 bytes, and reject nonzero values
below 32768. Returns the 16 decoded bytes. -/
def fromStrId128 (K : Kind) (s : List Char) : Option (List Nat) :=
  match stripPfx (kindPfx K) s with
  | none => none
  | some s1 =>
    match s1 with
    | '.' :: s2 =>
      match hexDecode s2 with
      | none => none
      | some bytes =>
        if bytes.length = 16 then
          if bytes ≠ List.replicate 16 0 ∧ beVal bytes < 32768 then none
          else some bytes
        else none
    | _ => none

/-- `Display for Id128<K>`: `"<prefix>.<32 lowercase hex chars>"`. -/
def displayId128 (K : Kind) (bytes : List Nat) : List Char :=
  kindPfx K ++ '.' :: hexEncode bytes

/-- The uppercase-hex identifier text used to refute claim C9. -/
def upperIdText : List Char := "p.0000000000000000000000000000ABCD".toList

/-- Claim C9, counterexample: the well-formed text
`p.0000000000000000000000000000ABCD` (valid prefix, 32 hex chars, value
43981 ≥ 32768) parses successfully, but re-displaying the parsed
identifier yields the lowercase form, not the original string: the text
round trip fails on uppercase hex digits. -/
theorem c9_uppercase_counterexample :
    (fromStrId128 .Persona upperIdText).isSome = true
    ∧ displayId128 .Persona ((fromStrId128 .Persona upperIdText).getD [])
        ≠ upperIdText := by
  decide

theorem lower_digit_encode (c : Char) (hc : lowerHexChar c = true) :
    ∃ d, hexDigitVal c = some d ∧ d < 16 ∧ digitChar d = c := by
  unfold lowerHexChar at hc
  rw [Bool.or_eq_true, decide_eq_true_eq, decide_eq_true_eq] at hc
  have hofn : Char.ofNat c.toNat = c := Char.ofNat_toNat c
  rcases hc with ⟨h1, h2⟩ | ⟨h1, h2⟩
  · refine ⟨c.toNat - 48, ?_, by omega, ?_⟩
    · unfold hexDigitVal
      rw [if_pos ⟨h1, h2⟩]
    · unfold digitChar
      rw [if_pos (by omega)]
      have h48 : 48 + (c.toNat - 48) = c.toNat := by omega
      rw [h48, hofn]
  · refine ⟨c.toNat - 87, ?_, by omega, ?_⟩
    · unfold hexDigitVal
      rw [if_neg (by omega), if_pos ⟨h1, h2⟩]
    · unfold digitChar
      rw [if_neg (by omega)]
      have h87 : 87 + (c.toNat - 87) = c.toNat := by omega
      rw [h87, hofn]

theorem stripPfx_append : ∀ p r : List Char, stripPfx p (p ++ r) = some r := by
  intro p
  induction p with
  | nil => intro r; rfl
  | cons c ps ih => intro r; simp [stripPfx, ih]

theorem beVal_eq_zero : ∀ bs : List Nat, beVal bs = 0 →
    bs = List.replicate bs.length 0 := by
  intro bs
  induction bs with
  | nil => intro _; rfl
  | cons b t ih =>
    intro h
    unfold beVal at h
    have hpow : 0 < 256 ^ t.length := Nat.pos_pow_of_pos _ (by omega)
    have hb : b = 0 := by
      by_contra hb
      have : 1 ≤ b := by omega
      nlinarith [Nat.le_add_right (b * 256 ^ t.length) (beVal t)]
    have ht : beVal t = 0 := by omega
    rw [hb, List.length_cons, List.replicate_succ, ← ih ht]

theorem hexDecode_encode :
    ∀ (n : Nat) (t : List Char), t.length = n →
      (∀ c ∈ t, lowerHexChar c = true) → n % 2 = 0 →
      ∃ bs, hexDecode t = some bs ∧ hexEncode bs = t
        ∧ bs.length * 2 = t.length ∧ ∀ b ∈ bs, b < 256 := by
  intro n
  induction n using Nat.strong_induction_on with
  | _ n ih =>
    intro t hlen hlow hmod
    match t with
    | [] => exact ⟨[], rfl, rfl, by simp, by simp⟩
    | [a] =>
      exfalso
      simp at hlen
      omega
    | a :: b :: t' =>
      have hlen' : t'.length = n - 2 := by simp at hlen; omega
      have hn2 : n - 2 < n := by simp at hlen; omega
      obtain ⟨bs', hdec', henc', hlen2', hbound'⟩ :=
        ih (n - 2) hn2 t' hlen'
          (fun c hc => hlow c (by simp [hc]))
          (by omega)
      obtain ⟨da, hda, hda16, hea⟩ :=
        lower_digit_encode a (hlow a (by simp))
      obtain ⟨db, hdb, hdb16, heb⟩ :=
        lower_digit_encode b (hlow b (by simp))
      refine ⟨(16 * da + db) :: bs', ?_, ?_, ?_, ?_⟩
      · show hexDecode (a :: b :: t') = some ((16 * da + db) :: bs')
        unfold hexDecode
        rw [hda, hdb, hdec']
      · have h1 : (16 * da + db) / 16 = da := by omega
        have h2 : (16 * da + db) % 16 = db := by omega
        simp [hexEncode, h1, h2, hea, heb, henc']
      · simp at hlen ⊢
        omega
      · intro x hx
        rcases List.mem_cons.mp hx with rfl | hx'
        · omega
        · exact hbound' x hx'

/-- Claim C9 (amended): the text round trip holds for the canonical
(lowercase) hex form: for every kind `K` and 32-character lowercase-hex
tail whose value is 0 or at least 32768, parsing
`"<prefix>.<tail>"` succeeds with the decoded bytes and re-displaying
them yields the input exactly. (Uppercase digits also parse — `hexhex`
is case-insensitive — but re-display lowercase, breaking the round trip
as stated.) -/
theorem c9_lowercase_roundtrip (K : Kind) (t : List Char)
    (hlen : t.length = 32)
    (hlow : ∀ c ∈ t, lowerHexChar c = true)
    (hval : beVal ((hexDecode t).getD []) = 0
      ∨ 32768 ≤ beVal ((hexDecode t).getD [])) :
    fromStrId128 K (kindPfx K ++ '.' :: t) = some ((hexDecode t).getD [])
    ∧ displayId128 K ((hexDecode t).getD []) = kindPfx K ++ '.' :: t := by
  obtain ⟨bs, hdec, henc, hlen2, hbound⟩ :=
    hexDecode_encode 32 t hlen hlow (by decide)
  rw [hdec] at hval ⊢
  simp only [Option.getD_some] at hval ⊢
  have hlen16 : bs.length = 16 := by omega
  have hcheck : ¬(bs ≠ List.replicate 16 0 ∧ beVal bs < 32768) := by
    rcases hval with h0 | hge
    · rintro ⟨hne, _⟩
      exact hne (by rw [← hlen16]; exact beVal_eq_zero bs h0)
    · rintro ⟨_, hlt⟩
      omega
  constructor
  · simp only [fromStrId128, stripPfx_append, hdec]
    rw [if_pos hlen16, if_neg hcheck]
  · simp [displayId128, henc]

/-- The canonical lowercase text of the smallest non-builtin identifier
value 32768, used to exercise `c9_lowercase_roundtrip`. -/
def lowerIdText : List Char := "00000000000000000000000000008000".toList

theorem c9_lowercase_roundtrip_witness :
    lowerIdText.length = 32
    ∧ (∀ c ∈ lowerIdText, lowerHexChar c = true)
    ∧ (beVal ((hexDecode lowerIdText).getD []) = 0
        ∨ 32768 ≤ beVal ((hexDecode lowerIdText).getD []))
    ∧ fromStrId128 Kind.Persona (kindPfx Kind.Persona ++ '.' :: lowerIdText)
        = some ((hexDecode lowerIdText).getD [])
    ∧ displayId128 Kind.Persona ((hexDecode lowerIdText).getD [])
        = kindPfx Kind.Persona ++ '.' :: lowerIdText :=
  ⟨by decide, by decide, by decide,
   (c9_lowercase_roundtrip Kind.Persona lowerIdText (by decide) (by decide)
     (by decide)).1,
   (c9_lowercase_roundtrip Kind.Persona lowerIdText (by decide) (by decide)
     (by decide)).2⟩
